import Mathlib

/-!
Verification development for the SQL query-optimizer module
(`src/queryOptimizer.js`): tokenizer, recursive-descent SQL SELECT
statement reader, constant folding, dynamic-programming join-order
search, index selection, execution-plan generation and plan costing.

Modelling conventions, stated once here:
* JavaScript numbers are modelled exactly: token literal values and
  cardinality/cost values on the join-order side are rationals (the
  concrete values reachable in these code paths are products, sums and
  quotients of small decimals, on which IEEE doubles are exact);
  execution-plan costing is real-valued because the source uses
  Math.log2 on fractional cardinalities there.
* `Math.ceil(Math.log2(n))` on a table row count `n : Nat` is modelled
  as the ceiling base-2 logarithm `ceilLog2 n` (equal to `Nat.clog 2 n`),
  which agrees with the source for every `n >= 1`.
* JavaScript Maps keyed by table/index name are modelled as
  `String -> Option _` functions (statistics, where only lookup is
  used) or association lists (indexes, where insertion-order iteration
  is used).
* Absent object properties and `undefined`/`null` are modelled with
  `Option`; reading a property of `undefined` (a TypeError in JS) is
  modelled by a dedicated error value in the reader.
* The dead merge-join branch of `estimateJoinCost` multiplies by
  `Math.log2` of a cardinality; the surrounding guard `canUseMergeJoin`
  is constantly false in the source (its helper `hasIndex` returns
  false), which is proved below.  The log2 used inside that branch is
  therefore kept as an explicit parameter `mlog2`; every theorem is
  quantified over it, showing no result depends on the dead branch.
-/

/-- Token classification tags, mirroring the `type` strings of `tokenize`. -/
inductive TokType where
  | KEYWORD
  | IDENTIFIER
  | NUMBER
  | STRING
  | OPERATOR
  | SPECIAL
  deriving DecidableEq, Repr

/-- A token (or AST literal) payload: tokenize stores strings for
keywords/identifiers/operators/specials and parseFloat results for numbers. -/
inductive TValue where
  | str (s : String)
  | num (q : ℚ)
  deriving DecidableEq, Repr

/-- One token produced by `tokenize`: `{ type, value, position }`. -/
structure Token where
  type : TokType
  value : TValue
  position : Nat
  deriving DecidableEq, Repr

/-- The apostrophe character (code point 39), the string-literal delimiter. -/
def quoteChar : Char := Char.ofNat 39

/-- The whitespace characters skipped by the tokenizer (the ASCII part of
the JS regexp character class for whitespace; the inputs we evaluate use
spaces only). -/
def isWsChar (c : Char) : Bool :=
  c = ' ' || c = '\t' || c = '\n' || c = '\r' || c = '\x0b' || c = '\x0c'

/-- First character of an identifier: letter or underscore. -/
def isIdStart (c : Char) : Bool :=
  (('a' ≤ c && c ≤ 'z') || ('A' ≤ c && c ≤ 'Z') || c = '_')

/-- Subsequent identifier character: letter, digit or underscore. -/
def isIdChar (c : Char) : Bool :=
  isIdStart c || c.isDigit

/-- The operator alternatives of the tokenizer's operator regexp, in the
order the alternation tries them. -/
def opAlternatives : List String :=
  [">=", "<=", "<>", "!=", "=", "<", ">", "+", "-", "*", "/", "%", "||", "&&"]

/-- The keyword set of the tokenizer. -/
def sqlKeywords : List String :=
  ["SELECT", "FROM", "WHERE", "JOIN", "LEFT", "RIGHT", "INNER", "OUTER",
   "ON", "AND", "OR", "NOT", "IN", "EXISTS", "BETWEEN", "LIKE", "GROUP",
   "BY", "HAVING", "ORDER", "LIMIT", "OFFSET", "UNION", "INTERSECT",
   "EXCEPT", "AS", "DISTINCT", "ALL", "ANY", "SOME"]

/-- Numeric value of a list of decimal digit characters. -/
def natOfDigits (ds : List Char) : Nat :=
  ds.foldl (fun a c => 10 * a + (c.toNat - 48)) 0

/-- parseFloat of `\d+(\.\d+)?`: integer part plus scaled fractional part. -/
def ratOfParts (ip fp : List Char) : ℚ :=
  (natOfDigits ip : ℚ) + (natOfDigits fp : ℚ) / (10 ^ fp.length : ℚ)

/-- Match of the string-literal regexp at the head of the input: returns the
characters strictly between the two quotes, or none.  The regexp accepts no
embedded quote, a documented limitation of the source. -/
def stringScan (cs : List Char) : Option (List Char) :=
  match cs with
  | c :: rest =>
    if c = quoteChar then
      let content := rest.takeWhile (fun d => d ≠ quoteChar)
      match rest.drop content.length with
      | _ :: _ => some content
      | [] => none
    else none
  | [] => none

/-- Match of the number regexp at the head of the input: returns the value
and the number of characters consumed. -/
def numScan (cs : List Char) : Option (ℚ × Nat) :=
  let ip := cs.takeWhile Char.isDigit
  if ip.isEmpty then none
  else
    match cs.drop ip.length with
    | c :: r2 =>
      if c = '.' then
        let fp := r2.takeWhile Char.isDigit
        if fp.isEmpty then some (ratOfParts ip [], ip.length)
        else some (ratOfParts ip fp, ip.length + 1 + fp.length)
      else some (ratOfParts ip [], ip.length)
    | [] => some (ratOfParts ip [], ip.length)

/-- First operator alternative that is a prefix of the input, if any. -/
def opScan (cs : List Char) : Option String :=
  opAlternatives.find? (fun op => op.data.isPrefixOf cs)

/-- Match of the identifier regexp at the head of the input. -/
def idScan (cs : List Char) : Option (List Char) :=
  match cs with
  | c :: rest => if isIdStart c then some (c :: rest.takeWhile isIdChar) else none
  | [] => none

/-- The scanning loop of `tokenize`, written with fuel: every iteration of
the source loop consumes at least one character, so `cs.length + 1` fuel is
always enough (established by starting it so in `tokenize` below).
Whitespace runs are consumed one character per iteration rather than one run
per iteration; the emitted tokens and positions are identical. -/
def tokenizeAux : Nat → List Char → Nat → List Token
  | 0, _, _ => []
  | _ + 1, [], _ => []
  | fuel + 1, c :: rest, pos =>
    if isWsChar c then tokenizeAux fuel rest (pos + 1)
    else
      match stringScan (c :: rest) with
      | some content =>
        ⟨.STRING, .str (String.mk content), pos⟩ ::
          tokenizeAux fuel ((c :: rest).drop (content.length + 2))
            (pos + (content.length + 2))
      | none =>
        match numScan (c :: rest) with
        | some (q, consumed) =>
          ⟨.NUMBER, .num q, pos⟩ ::
            tokenizeAux fuel ((c :: rest).drop consumed) (pos + consumed)
        | none =>
          match opScan (c :: rest) with
          | some op =>
            ⟨.OPERATOR, .str op, pos⟩ ::
              tokenizeAux fuel ((c :: rest).drop op.length) (pos + op.length)
          | none =>
            match idScan (c :: rest) with
            | some idChars =>
              let upper := String.mk (idChars.map Char.toUpper)
              let isKw := sqlKeywords.contains upper
              ⟨if isKw then .KEYWORD else .IDENTIFIER,
               .str (if isKw then upper else String.mk idChars), pos⟩ ::
                tokenizeAux fuel ((c :: rest).drop idChars.length)
                  (pos + idChars.length)
            | none =>
              ⟨.SPECIAL, .str (String.singleton c), pos⟩ ::
                tokenizeAux fuel rest (pos + 1)

/-- `tokenize(sql)`: the token list of a SQL text. -/
def tokenize (sql : String) : List Token :=
  tokenizeAux (sql.data.length + 1) sql.data 0

example :
    tokenize "SELECT * FROM users" =
      [⟨.KEYWORD, .str "SELECT", 0⟩, ⟨.OPERATOR, .str "*", 7⟩,
       ⟨.KEYWORD, .str "FROM", 9⟩, ⟨.IDENTIFIER, .str "users", 14⟩] := by
  decide

/-! ## JavaScript number and value model

Literal values in the AST.  The parser produces finite numbers and strings;
constant folding can additionally produce the IEEE special values
Infinity, -Infinity and NaN (division by zero), which are modelled
explicitly.  Finite values are exact rationals. -/

/-- A JavaScript number: a finite (exact) rational or a special value. -/
inductive JsNum where
  | rat (q : ℚ)
  | posInf
  | negInf
  | nan
  deriving DecidableEq, Repr

/-- JS addition on numbers. -/
def jsAdd : JsNum → JsNum → JsNum
  | .rat a, .rat b => .rat (a + b)
  | .nan, _ => .nan
  | _, .nan => .nan
  | .posInf, .negInf => .nan
  | .negInf, .posInf => .nan
  | .posInf, _ => .posInf
  | _, .posInf => .posInf
  | .negInf, _ => .negInf
  | _, .negInf => .negInf

/-- JS subtraction on numbers. -/
def jsSub : JsNum → JsNum → JsNum
  | .rat a, .rat b => .rat (a - b)
  | .nan, _ => .nan
  | _, .nan => .nan
  | .posInf, .posInf => .nan
  | .negInf, .negInf => .nan
  | .posInf, _ => .posInf
  | .negInf, _ => .negInf
  | _, .posInf => .negInf
  | _, .negInf => .posInf

/-- JS multiplication on numbers (signed-zero subtleties do not arise in
the folded expressions considered here). -/
def jsMul : JsNum → JsNum → JsNum
  | .rat a, .rat b => .rat (a * b)
  | .nan, _ => .nan
  | _, .nan => .nan
  | .posInf, .posInf => .posInf
  | .negInf, .negInf => .posInf
  | .posInf, .negInf => .negInf
  | .negInf, .posInf => .negInf
  | .posInf, .rat a => if a = 0 then .nan else if 0 < a then .posInf else .negInf
  | .rat a, .posInf => if a = 0 then .nan else if 0 < a then .posInf else .negInf
  | .negInf, .rat a => if a = 0 then .nan else if 0 < a then .negInf else .posInf
  | .rat a, .negInf => if a = 0 then .nan else if 0 < a then .negInf else .posInf

/-- JS division on numbers: a nonzero finite value divided by zero is a
signed infinity, and `0 / 0` is NaN. -/
def jsDiv : JsNum → JsNum → JsNum
  | .rat a, .rat b =>
    if b = 0 then
      if a = 0 then .nan else if 0 < a then .posInf else .negInf
    else .rat (a / b)
  | .nan, _ => .nan
  | _, .nan => .nan
  | .posInf, .posInf => .nan
  | .posInf, .negInf => .nan
  | .negInf, .posInf => .nan
  | .negInf, .negInf => .nan
  | .posInf, .rat b => if 0 ≤ b then .posInf else .negInf
  | .negInf, .rat b => if 0 ≤ b then .negInf else .posInf
  | .rat _, .posInf => .rat 0
  | .rat _, .negInf => .rat 0

/-- Decimal rendering of a natural number. -/
def natToDecimal (n : Nat) : String := toString n

/-- JS ToString for a number.  Exact for integers and the special values
(the only numeric-to-string conversions reachable from the claims); a
non-integral rational is rendered as numerator/denominator, standing in for
the shortest-roundtrip double rendering that an exact model cannot express. -/
def jsNumToString (n : JsNum) : String :=
  match n with
  | .nan => "NaN"
  | .posInf => "Infinity"
  | .negInf => "-Infinity"
  | .rat q =>
    if q.den = 1 then
      (if q.num < 0 then "-" else "") ++ natToDecimal q.num.natAbs
    else
      (if q.num < 0 then "-" else "") ++ natToDecimal q.num.natAbs ++ "/" ++
        natToDecimal q.den

/-- JS ToNumber for a string, restricted to the trimmed decimal forms that
the tokenizer itself accepts (empty string gives 0, unparsable gives NaN). -/
def jsStringToNum (s : String) : JsNum :=
  let cs := s.data.dropWhile isWsChar
  let cs := (cs.reverse.dropWhile isWsChar).reverse
  match cs with
  | [] => .rat 0
  | _ =>
    match numScan cs with
    | some (q, consumed) => if consumed = cs.length then .rat q else .nan
    | none => .nan

/-- A literal value: a number, a string, or `undefined` (the value of a
`.value` property read on a node that has none). -/
inductive Value where
  | num (n : JsNum)
  | str (s : String)
  | undefined
  deriving DecidableEq, Repr

/-- JS ToString on a literal value. -/
def valueToString : Value → String
  | .num n => jsNumToString n
  | .str s => s
  | .undefined => "undefined"

/-- JS ToNumber on a literal value (`undefined` converts to NaN). -/
def valueToNum : Value → JsNum
  | .num n => n
  | .str s => jsStringToNum s
  | .undefined => .nan

/-- The `+` operator on two literal values: string concatenation when either
side is a string, numeric addition otherwise. -/
def valueAdd (a b : Value) : Value :=
  match a, b with
  | .str _, _ => .str (valueToString a ++ valueToString b)
  | _, .str _ => .str (valueToString a ++ valueToString b)
  | _, _ => .num (jsAdd (valueToNum a) (valueToNum b))

/-- The `-` operator on two literal values (numeric, via ToNumber). -/
def valueSub (a b : Value) : Value := .num (jsSub (valueToNum a) (valueToNum b))

/-- The `*` operator on two literal values (numeric, via ToNumber). -/
def valueMul (a b : Value) : Value := .num (jsMul (valueToNum a) (valueToNum b))

/-- The `/` operator on two literal values (numeric, via ToNumber). -/
def valueDiv (a b : Value) : Value := .num (jsDiv (valueToNum a) (valueToNum b))

/-! ## AST

The tagged node objects built by the recursive-descent reader.
`Expr` covers BINARY_OP, COLUMN, LITERAL, FUNCTION and WILDCARD nodes;
a literal's `dataType` is optional because the nodes produced by
`evaluateBinaryOp` omit it. -/

/-- The `dataType` tag carried by parser-produced LITERAL nodes. -/
inductive DataType where
  | NUMBER
  | STRING
  deriving DecidableEq, Repr

mutual
/-- Expression AST nodes. -/
inductive Expr where
  | binaryOp (operator : String) (left right : Expr)
  | column (parts : List String)
  | literal (dataType : Option DataType) (value : Value)
  | func (name : String) (arguments : ExprList)
  | wildcard
  deriving DecidableEq, Repr

/-- Argument lists of FUNCTION nodes (kept as a mutual inductive so that
structural recursion and induction over nested expressions stay direct). -/
inductive ExprList where
  | nil
  | cons (head : Expr) (tail : ExprList)
  deriving DecidableEq, Repr
end

/-- Convert an `ExprList` to an ordinary list. -/
def ExprList.toList : ExprList → List Expr
  | .nil => []
  | .cons e t => e :: t.toList

/-- Convert an ordinary list to an `ExprList`. -/
def ExprList.ofList : List Expr → ExprList
  | [] => .nil
  | e :: t => .cons e (ExprList.ofList t)

/-- A join predicate record as consumed by `estimateJoinCost` /
`canUseMergeJoin`: the source only ever reads `.type`, `.operator`,
`.left` and `.right` from these (and, as proved below,
`extractJoinPredicates` never actually constructs one). -/
structure JoinPred where
  ptype : String
  operator : String
  pleft : String
  pright : String
  deriving DecidableEq, Repr

/-- FROM-clause nodes: TABLE references and JOIN nodes.  A JOIN node
object carries whichever of the optional properties its producer set:
`parseFromClause` sets `joinType`/`condition` (never `method`/
`predicates`), `optimizeJoinOrder` sets `method`/`predicates` (never
`joinType`/`condition`). -/
inductive FromNode where
  | table (name : String) («alias» : Option String)
  | join (joinType : Option String) (left right : FromNode)
      (condition : Option Expr) (method : Option String)
      (predicates : Option (List JoinPred))
  deriving DecidableEq, Repr

/-- One ORDER BY item: `{ expression, direction }`. -/
structure OrderItem where
  expression : Expr
  direction : String
  deriving DecidableEq, Repr

/-- The SELECT statement AST node. -/
structure SelectAst where
  columns : List Expr
  «from» : List FromNode
  «where» : Option Expr
  groupBy : Option (List Expr)
  having : Option Expr
  orderBy : Option (List OrderItem)
  limit : Option TValue
  deriving DecidableEq, Repr

/-- JS truthiness of a token value (used by `generateExecutionPlan`'s
`if (ast.limit)`): zero and the empty string are falsy. -/
def jsTruthy : TValue → Bool
  | .num q => q ≠ 0
  | .str s => s ≠ ""

/-! ## The recursive-descent reader (`Parser` class)

State is the fixed token list plus the current position; every routine
returns the produced node together with the new position, or an error.
The mutual recursion is made structural with a fuel argument: every
nested call passes the predecessor of the received fuel, so fuel bounds
the call depth; `parseTokens` below starts with more fuel than any
input of its length can consume. -/

/-- How parsing can fail: a thrown parse `Error` carrying its message; a
TypeError from reading `.type`/`.value` of `undefined` when the token list
is exhausted at a point where the source does `this.current().type`; or
fuel exhaustion, the model artifact of the bounded recursion depth. -/
inductive PErr where
  | parseError (msg : String)
  | typeError
  | outOfFuel
  deriving DecidableEq, Repr

deriving instance DecidableEq for Except

/-- `this.current()`: the token at the current position, if any. -/
def curTok (tokens : List Token) (pos : Nat) : Option Token :=
  tokens.get? pos

/-- `this.peek()`: the token after the current position, if any. -/
def peekTok (tokens : List Token) (pos : Nat) : Option Token :=
  tokens.get? (pos + 1)

/-- Rendering of a token value in an error message template (identifier
and keyword tokens carry strings, which render as themselves). -/
def showTValue : TValue → String
  | .str s => s
  | .num q => jsNumToString (.rat q)

/-- Rendering of `this.current()?.value` in an error message template. -/
def showOptTokValue : Option Token → String
  | none => "undefined"
  | some t => showTValue t.value

/-- Is this token value the given expected string (the `===` comparison in
`match`)? -/
def tvIsStr (v : TValue) (s : String) : Bool :=
  match v with
  | .str x => x == s
  | .num _ => false

/-- `this.match(expected)`: advance past the current token when its value
equals `expected`; returns whether it matched plus the new position. -/
def matchTok (tokens : List Token) (pos : Nat) (expected : String) : Bool × Nat :=
  match curTok tokens pos with
  | some t => if tvIsStr t.value expected then (true, pos + 1) else (false, pos)
  | none => (false, pos)

/-- `this.expect(expected)`: like `match`, but a failure throws a parse
error naming the expected string and the current token's value. -/
def expectTok (tokens : List Token) (pos : Nat) (expected : String) :
    Except PErr Nat :=
  let (ok, p) := matchTok tokens pos expected
  if ok then .ok p
  else .error (.parseError
    ("Expected " ++ expected ++ ", got " ++ showOptTokValue (curTok tokens pos)))

/-- `this.expectIdentifier()`: reads `.type` of the current token (a
TypeError when input is exhausted) and returns its value.  A non-string
identifier value cannot be produced by the tokenizer; it is rendered. -/
def expectIdent (tokens : List Token) (pos : Nat) : Except PErr (String × Nat) :=
  match curTok tokens pos with
  | none => .error .typeError
  | some t =>
    if t.type = .IDENTIFIER then .ok (showTValue t.value, pos + 1)
    else .error (.parseError ("Expected identifier, got " ++ showTValue t.value))

/-- `this.parseNumber()`: reads `.type` of the current token (a TypeError
when input is exhausted) and returns its raw value. -/
def parseNumberTok (tokens : List Token) (pos : Nat) : Except PErr (TValue × Nat) :=
  match curTok tokens pos with
  | none => .error .typeError
  | some t =>
    if t.type = .NUMBER then .ok (t.value, pos + 1)
    else .error (.parseError ("Expected number, got " ++ showTValue t.value))

/-- Token value as a literal AST value. -/
def tvalueToValue : TValue → Value
  | .num q => .num (.rat q)
  | .str s => .str s

/-- `this.parseTableReference()`: identifier, optional `AS` alias or bare
trailing identifier alias.  The bare-alias check does
`this.current().type`, a TypeError when the input is exhausted. -/
def parseTableRef (tokens : List Token) (pos : Nat) :
    Except PErr (FromNode × Nat) := do
  let (name, p1) ← expectIdent tokens pos
  let (mas, p2) := matchTok tokens p1 "AS"
  if mas then
    let (al, p3) ← expectIdent tokens p2
    return (.table name (some al), p3)
  else
    match curTok tokens p1 with
    | none => .error .typeError
    | some t =>
      if t.type = .IDENTIFIER then
        let (al, p3) ← expectIdent tokens p1
        return (.table name (some al), p3)
      else
        return (.table name none, p1)

/-- Keywords that begin a join step in `parseFromClause`. -/
def joinKeywords : List String := ["JOIN", "LEFT", "RIGHT", "INNER", "OUTER"]

/-- The family of mutually recursive reader routines, as one record: the
routines at recursion depth `fuel + 1` call the routines at depth `fuel`,
so the mutual recursion of the source becomes a single structural
recursion on the fuel (`parserFns` below). -/
structure ParserFns where
  selectStmt : List Token → Nat → Except PErr (SelectAst × Nat)
  selectList : List Token → Nat → Except PErr (List Expr × Nat)
  fromClause : List Token → Nat → Except PErr (List FromNode × Nat)
  joinRun : List Token → Nat → FromNode → Except PErr (FromNode × Nat)
  whereClause : List Token → Nat → Except PErr (Expr × Nat)
  expression : List Token → Nat → Except PErr (Expr × Nat)
  orExpr : List Token → Nat → Except PErr (Expr × Nat)
  orRest : List Token → Nat → Expr → Except PErr (Expr × Nat)
  andExpr : List Token → Nat → Except PErr (Expr × Nat)
  andRest : List Token → Nat → Expr → Except PErr (Expr × Nat)
  comparison : List Token → Nat → Except PErr (Expr × Nat)
  primary : List Token → Nat → Except PErr (Expr × Nat)
  argList : List Token → Nat → Except PErr (ExprList × Nat)
  partsRest : List Token → Nat → List String → Except PErr (List String × Nat)
  groupByClause : List Token → Nat → Except PErr (List Expr × Nat)
  havingClause : List Token → Nat → Except PErr (Expr × Nat)
  orderByClause : List Token → Nat → Except PErr (List OrderItem × Nat)

/-- The depth-0 routines: out of fuel (unreachable from `parseTokens`). -/
def noFuelFns : ParserFns where
  selectStmt := fun _ _ => .error .outOfFuel
  selectList := fun _ _ => .error .outOfFuel
  fromClause := fun _ _ => .error .outOfFuel
  joinRun := fun _ _ _ => .error .outOfFuel
  whereClause := fun _ _ => .error .outOfFuel
  expression := fun _ _ => .error .outOfFuel
  orExpr := fun _ _ => .error .outOfFuel
  orRest := fun _ _ _ => .error .outOfFuel
  andExpr := fun _ _ => .error .outOfFuel
  andRest := fun _ _ _ => .error .outOfFuel
  comparison := fun _ _ => .error .outOfFuel
  primary := fun _ _ => .error .outOfFuel
  argList := fun _ _ => .error .outOfFuel
  partsRest := fun _ _ _ => .error .outOfFuel
  groupByClause := fun _ _ => .error .outOfFuel
  havingClause := fun _ _ => .error .outOfFuel
  orderByClause := fun _ _ => .error .outOfFuel

/-- One depth layer of the reader on top of the routines `P` of the next
depth.  Each field is the direct transcription of the corresponding
source method; see the doc comments on the named wrappers below. -/
def stepFns (P : ParserFns) : ParserFns where
  selectStmt := fun tokens pos => do
    let p1 ← expectTok tokens pos "SELECT"
    let (columns, p2) ← P.selectList tokens p1
    let p3 ← expectTok tokens p2 "FROM"
    let (fromList, p4) ← P.fromClause tokens p3
    let (mw, p5) := matchTok tokens p4 "WHERE"
    let (whereE, p6) ←
      if mw then do
        let (e, p) ← P.whereClause tokens p5
        pure (some e, p)
      else pure ((none : Option Expr), p5)
    let (mg, p7) := matchTok tokens p6 "GROUP"
    let (groupBy, p8) ←
      if mg then do
        let p ← expectTok tokens p7 "BY"
        let (es, p') ← P.groupByClause tokens p
        pure (some es, p')
      else pure ((none : Option (List Expr)), p7)
    let (mh, p9) := matchTok tokens p8 "HAVING"
    let (having, p10) ←
      if mh then do
        let (e, p) ← P.havingClause tokens p9
        pure (some e, p)
      else pure ((none : Option Expr), p9)
    let (mo, p11) := matchTok tokens p10 "ORDER"
    let (orderBy, p12) ←
      if mo then do
        let p ← expectTok tokens p11 "BY"
        let (items, p') ← P.orderByClause tokens p
        pure (some items, p')
      else pure ((none : Option (List OrderItem)), p11)
    let (ml, p13) := matchTok tokens p12 "LIMIT"
    let (limit, p14) ←
      if ml then do
        let (v, p) ← parseNumberTok tokens p13
        pure (some v, p)
      else pure ((none : Option TValue), p13)
    return ({ columns := columns, «from» := fromList, «where» := whereE,
              groupBy := groupBy, having := having, orderBy := orderBy,
              limit := limit }, p14)
  selectList := fun tokens pos => do
    let (mstar, p1) := matchTok tokens pos "*"
    let (item, p2) ←
      if mstar then pure (Expr.wildcard, p1)
      else P.expression tokens p1
    let (mc, p3) := matchTok tokens p2 ","
    if mc then
      let (rest, p4) ← P.selectList tokens p3
      return (item :: rest, p4)
    else
      return ([item], p3)
  fromClause := fun tokens pos => do
    let (t, p1) ← parseTableRef tokens pos
    let (grp, p2) ← P.joinRun tokens p1 t
    let (mc, p3) := matchTok tokens p2 ","
    if mc then
      let (rest, p4) ← P.fromClause tokens p3
      return (grp :: rest, p4)
    else
      return ([grp], p3)
  joinRun := fun tokens pos left =>
    match curTok tokens pos with
    | none => .ok (left, pos)
    | some t =>
      if joinKeywords.any (tvIsStr t.value) then do
        let joinType := showTValue t.value
        let p1 := pos + 1
        let (_, p2) := matchTok tokens p1 "JOIN"
        let (right, p3) ← parseTableRef tokens p2
        let (mon, p4) := matchTok tokens p3 "ON"
        let (cond, p5) ←
          if mon then do
            let (e, p) ← P.expression tokens p4
            pure (some e, p)
          else pure ((none : Option Expr), p4)
        P.joinRun tokens p5 (.join (some joinType) left right cond none none)
      else .ok (left, pos)
  whereClause := fun tokens pos => P.expression tokens pos
  expression := fun tokens pos => P.orExpr tokens pos
  orExpr := fun tokens pos => do
    let (left, p1) ← P.andExpr tokens pos
    P.orRest tokens p1 left
  orRest := fun tokens pos left => do
    let (m, p1) := matchTok tokens pos "OR"
    if m then
      let (right, p2) ← P.andExpr tokens p1
      P.orRest tokens p2 (.binaryOp "OR" left right)
    else
      return (left, p1)
  andExpr := fun tokens pos => do
    let (left, p1) ← P.comparison tokens pos
    P.andRest tokens p1 left
  andRest := fun tokens pos left => do
    let (m, p1) := matchTok tokens pos "AND"
    if m then
      let (right, p2) ← P.comparison tokens p1
      P.andRest tokens p2 (.binaryOp "AND" left right)
    else
      return (left, p1)
  comparison := fun tokens pos => do
    let (left, p1) ← P.primary tokens pos
    match curTok tokens p1 with
    | none => .error .typeError
    | some t =>
      if t.type = .OPERATOR then do
        let operator := showTValue t.value
        let (right, p2) ← P.primary tokens (p1 + 1)
        return (.binaryOp operator left right, p2)
      else
        return (left, p1)
  primary := fun tokens pos => do
    let (mp, p1) := matchTok tokens pos "("
    if mp then do
      let (e, p2) ← P.expression tokens p1
      let p3 ← expectTok tokens p2 ")"
      return (e, p3)
    else
      match curTok tokens pos with
      | none => .error .typeError
      | some t =>
        if t.type = .IDENTIFIER then
          if (match peekTok tokens pos with
              | some t2 => tvIsStr t2.value "("
              | none => false) then do
            let (fn, p1) ← expectIdent tokens pos
            let p2 ← expectTok tokens p1 "("
            let (mclose, p3) := matchTok tokens p2 ")"
            if mclose then
              return (.func fn .nil, p3)
            else do
              let (args, p4) ← P.argList tokens p3
              let p5 ← expectTok tokens p4 ")"
              return (.func fn args, p5)
          else do
            let (first, p1) ← expectIdent tokens pos
            let (parts, p2) ← P.partsRest tokens p1 [first]
            return (.column parts, p2)
        else if t.type = .NUMBER then
          return (.literal (some .NUMBER) (tvalueToValue t.value), pos + 1)
        else if t.type = .STRING then
          return (.literal (some .STRING) (tvalueToValue t.value), pos + 1)
        else
          .error (.parseError ("Unexpected token: " ++ showTValue t.value))
  argList := fun tokens pos => do
    let (e, p1) ← P.expression tokens pos
    let (mc, p2) := matchTok tokens p1 ","
    if mc then
      let (rest, p3) ← P.argList tokens p2
      return (.cons e rest, p3)
    else
      return (.cons e .nil, p2)
  partsRest := fun tokens pos acc => do
    let (m, p1) := matchTok tokens pos "."
    if m then
      let (idv, p2) ← expectIdent tokens p1
      P.partsRest tokens p2 (acc ++ [idv])
    else
      return (acc, p1)
  groupByClause := fun tokens pos => do
    let (e, p1) ← P.expression tokens pos
    let (mc, p2) := matchTok tokens p1 ","
    if mc then
      let (rest, p3) ← P.groupByClause tokens p2
      return (e :: rest, p3)
    else
      return ([e], p2)
  havingClause := fun tokens pos => P.expression tokens pos
  orderByClause := fun tokens pos => do
    let (e, p1) ← P.expression tokens pos
    let (ma, p2) := matchTok tokens p1 "ASC"
    let (dir, p3) :=
      if ma then ("ASC", p2)
      else
        let (md, p2') := matchTok tokens p1 "DESC"
        if md then ("DESC", p2') else ("ASC", p1)
    let (mc, p4) := matchTok tokens p3 ","
    if mc then
      let (rest, p5) ← P.orderByClause tokens p4
      return (⟨e, dir⟩ :: rest, p5)
    else
      return ([⟨e, dir⟩], p4)

/-- The reader routines at a given depth. -/
def parserFns : Nat → ParserFns
  | 0 => noFuelFns
  | fuel + 1 => stepFns (parserFns fuel)

/-- `parseSelectStatement`. -/
def parseSelectStmt (fuel : Nat) : List Token → Nat →
    Except PErr (SelectAst × Nat) :=
  (parserFns fuel).selectStmt

/-- `parseSelectList`: `*` or expressions, comma separated (do/while). -/
def parseSelectList (fuel : Nat) : List Token → Nat →
    Except PErr (List Expr × Nat) :=
  (parserFns fuel).selectList

/-- `parseFromClause`: comma-separated table groups, where each group is a
table reference followed by a run of join steps (the source pushes the
group and pops it back as the left operand of each new join node). -/
def parseFromClause (fuel : Nat) : List Token → Nat →
    Except PErr (List FromNode × Nat) :=
  (parserFns fuel).fromClause

/-- The inner `while (this.matchAny([...]))` loop of `parseFromClause`:
accumulates join nodes left-associatively onto its third argument. -/
def parseJoinRun (fuel : Nat) : List Token → Nat → FromNode →
    Except PErr (FromNode × Nat) :=
  (parserFns fuel).joinRun

/-- `parseWhereClause`. -/
def parseWhereClause (fuel : Nat) : List Token → Nat →
    Except PErr (Expr × Nat) :=
  (parserFns fuel).whereClause

/-- `parseExpression`. -/
def parseExpression (fuel : Nat) : List Token → Nat →
    Except PErr (Expr × Nat) :=
  (parserFns fuel).expression

/-- `parseOrExpression` (with `parseOrRest` as its accumulation loop). -/
def parseOrExpression (fuel : Nat) : List Token → Nat →
    Except PErr (Expr × Nat) :=
  (parserFns fuel).orExpr

/-- `parseAndExpression` (with `parseAndRest` as its accumulation loop). -/
def parseAndExpression (fuel : Nat) : List Token → Nat →
    Except PErr (Expr × Nat) :=
  (parserFns fuel).andExpr

/-- `parseComparisonExpression`: a primary, optionally followed by one
operator token and a second primary.  The operator check does
`this.current().type`, a TypeError when the input is exhausted. -/
def parseComparisonExpression (fuel : Nat) : List Token → Nat →
    Except PErr (Expr × Nat) :=
  (parserFns fuel).comparison

/-- `parsePrimaryExpression`: parenthesized expression, function call,
dotted column reference, literal; otherwise a thrown parse error.  The
post-parenthesis checks do `this.current().type`, a TypeError when the
input is exhausted. -/
def parsePrimaryExpression (fuel : Nat) : List Token → Nat →
    Except PErr (Expr × Nat) :=
  (parserFns fuel).primary

/-- The argument do/while loop of a function call. -/
def parseArgList (fuel : Nat) : List Token → Nat →
    Except PErr (ExprList × Nat) :=
  (parserFns fuel).argList

/-- The `while (this.match('.'))` loop of a dotted column reference. -/
def parsePartsRest (fuel : Nat) : List Token → Nat → List String →
    Except PErr (List String × Nat) :=
  (parserFns fuel).partsRest

/-- `parseGroupByClause`: comma-separated expressions (do/while). -/
def parseGroupByClause (fuel : Nat) : List Token → Nat →
    Except PErr (List Expr × Nat) :=
  (parserFns fuel).groupByClause

/-- `parseHavingClause`. -/
def parseHavingClause (fuel : Nat) : List Token → Nat →
    Except PErr (Expr × Nat) :=
  (parserFns fuel).havingClause

/-- `parseOrderByClause`: comma-separated items, each an expression with an
optional `ASC`/`DESC` (default `ASC`). -/
def parseOrderByClause (fuel : Nat) : List Token → Nat →
    Except PErr (List OrderItem × Nat) :=
  (parserFns fuel).orderByClause

/-- `parser.parse()` on a token list; the starting fuel exceeds the call
depth reachable from any input of this length. -/
def parseTokens (tokens : List Token) : Except PErr SelectAst :=
  (parseSelectStmt (16 * tokens.length + 64) tokens 0).map (·.1)

/-- `parseSQL(sql)`: tokenize then parse. -/
def parseSQL (sql : String) : Except PErr SelectAst :=
  parseTokens (tokenize sql)

/-! ## Query rewriting: constant folding -/

/-- Is this expression node a LITERAL? -/
def Expr.isLit : Expr → Bool
  | .literal _ _ => true
  | _ => false

/-- The `.value` property of an expression node (`undefined` on nodes that
carry none; `evaluateBinaryOp` is only reached with literal operands). -/
def exprValueJS : Expr → Value
  | .literal _ v => v
  | _ => .undefined

/-- `evaluateBinaryOp(operator, left, right)`: computes a fresh LITERAL node
for `+ - * /` — note it carries no `dataType` property — and rebuilds a
BINARY_OP node for any other operator. -/
def evaluateBinaryOp (operator : String) (left right : Expr) : Expr :=
  let leftVal := exprValueJS left
  let rightVal := exprValueJS right
  if operator = "+" then .literal none (valueAdd leftVal rightVal)
  else if operator = "-" then .literal none (valueSub leftVal rightVal)
  else if operator = "*" then .literal none (valueMul leftVal rightVal)
  else if operator = "/" then .literal none (valueDiv leftVal rightVal)
  else .binaryOp operator left right

mutual
/-- `foldConstants` on an expression node: fold the operands of a
BINARY_OP and evaluate it when both folded operands are literals; descend
into every child node otherwise.  (After the binary-operand folds the
source's generic property loop folds each operand a second time; that
second pass is the identity, proved as `foldExpr_idem` below, so it is
not repeated here.) -/
def foldExpr : Expr → Expr
  | .binaryOp op l r =>
    let l' := foldExpr l
    let r' := foldExpr r
    if l'.isLit && r'.isLit then evaluateBinaryOp op l' r'
    else .binaryOp op l' r'
  | .column parts => .column parts
  | .literal dt v => .literal dt v
  | .func name args => .func name (foldExprList args)
  | .wildcard => .wildcard

/-- `foldConstants` mapped over a FUNCTION node's argument array. -/
def foldExprList : ExprList → ExprList
  | .nil => .nil
  | .cons e t => .cons (foldExpr e) (foldExprList t)
end

/-- `foldConstants` descending through a FROM node (join conditions contain
expressions; names, aliases and join predicates contain only strings). -/
def foldFrom : FromNode → FromNode
  | .table n a => .table n a
  | .join jt l r cond m p =>
    .join jt (foldFrom l) (foldFrom r) (cond.map foldExpr) m p

/-- `foldConstants` descending through an ORDER BY item. -/
def foldOrderItem (oi : OrderItem) : OrderItem :=
  { oi with expression := foldExpr oi.expression }

/-- `foldConstants(ast)` on the SELECT node: fold every child. -/
def foldConstants (ast : SelectAst) : SelectAst :=
  { columns := ast.columns.map foldExpr
    «from» := ast.«from».map foldFrom
    «where» := ast.«where».map foldExpr
    groupBy := ast.groupBy.map (fun es => es.map foldExpr)
    having := ast.having.map foldExpr
    orderBy := ast.orderBy.map (fun items => items.map foldOrderItem)
    limit := ast.limit }

/-- `eliminateDuplicates` (implementation omitted in the source). -/
def eliminateDuplicates (ast : SelectAst) : SelectAst := ast

/-- `simplifyPredicates` (implementation omitted in the source). -/
def simplifyPredicates (ast : SelectAst) : SelectAst := ast

/-- `rewriteQuery`: constant folding, duplicate elimination, predicate
simplification. -/
def rewriteQuery (ast : SelectAst) : SelectAst :=
  simplifyPredicates (eliminateDuplicates (foldConstants ast))

/-! ## Statistics, indexes, and the join-order search -/

/-- Per-table statistics; only `rowCount` is ever read by the optimizer. -/
structure TableStats where
  rowCount : Nat
  deriving DecidableEq, Repr

/-- The statistics map (`this.statistics`), lookup-only. -/
def Stats : Type := String → Option TableStats

/-- One index record (`this.indexes` values). -/
structure IndexInfo where
  table : String
  columns : List String
  unique : Bool
  selectivity : ℚ
  deriving DecidableEq, Repr

/-- The index map (`this.indexes`): an association list because
`getCandidateIndexes` iterates it in insertion order. -/
def IndexCatalog : Type := List (String × IndexInfo)

/-- Lookup in the index map. -/
def indexLookup (idxs : IndexCatalog) (name : String) : Option IndexInfo :=
  (idxs.find? (fun ni => ni.1 == name)).map (·.2)

/-- The `.name` property of a FROM node (`undefined` on join nodes). -/
def fromName : FromNode → Option String
  | .table n _ => some n
  | .join _ _ _ _ _ _ => none

/-- `getTableScanCost` for a name: statistics row count, defaulting to 1000. -/
def getTableScanCostN (stats : Stats) (name : String) : Nat :=
  match stats name with
  | some s => s.rowCount
  | none => 1000

/-- `getTableScanCost(table)`. -/
def getTableScanCost (stats : Stats) (t : FromNode) : Nat :=
  match fromName t with
  | some n => getTableScanCostN stats n
  | none => 1000

/-- `getTableCardinality(table)` (same lookup as the scan cost). -/
def getTableCardinality (stats : Stats) (t : FromNode) : Nat :=
  getTableScanCost stats t

/-- `extractTables`' recursive visitor. -/
def extractTablesNode : FromNode → List FromNode
  | .table n a => [.table n a]
  | .join _ l r _ _ _ => extractTablesNode l ++ extractTablesNode r

/-- `extractTables(from)`: the base TABLE nodes, left to right. -/
def extractTables (fs : List FromNode) : List FromNode :=
  (fs.map extractTablesNode).flatten

/-- `extractJoinPredicates(ast)`: the implementation is omitted in the
source, so every call returns the empty array. -/
def extractJoinPredicates (_ast : SelectAst) : List JoinPred := []

/-- `isPredicateApplicable` (implementation omitted: always true). -/
def isPredicateApplicable (_p : JoinPred) (_mask : Nat) : Bool := true

/-- `hasIndex` (implementation omitted: always false). -/
def hasIndex (_column : String) : Bool := false

/-- `canUseMergeJoin(predicates)`. -/
def canUseMergeJoin (preds : List JoinPred) : Bool :=
  preds.any (fun p => p.ptype == "EQUALITY" && hasIndex p.pleft && hasIndex p.pright)

/-- The selectivity tabulated by `estimatePredicateSelectivity` from the
`.operator` property of its argument. -/
def selOfOperator (op : Option String) : ℚ :=
  match op with
  | some o =>
    if o = "=" then 1/10
    else if o = "<" ∨ o = ">" then 3/10
    else if o = "LIKE" then 1/4
    else if o = "IN" then 1/5
    else 1/2
  | none => 1/2

/-- The `.operator` property of an expression node. -/
def exprOperator : Expr → Option String
  | .binaryOp op _ _ => some op
  | _ => none

/-- `estimatePredicateSelectivity` applied to an expression node. -/
def estimatePredicateSelectivityE (e : Expr) : ℚ :=
  selOfOperator (exprOperator e)

/-- `estimatePredicateSelectivity` applied to a join-predicate record. -/
def estimatePredicateSelectivityP (p : JoinPred) : ℚ :=
  selOfOperator (some p.operator)

/-- `estimateSelectivity(predicates)`: product of the individual
selectivities (1 for the empty list). -/
def estimateSelectivity (preds : List JoinPred) : ℚ :=
  if preds.isEmpty then 1
  else preds.foldl (fun s p => s * estimatePredicateSelectivityP p) 1

/-- Result record of `estimateJoinCost`. -/
structure JoinCostResult where
  cost : ℚ
  method : String
  cardinality : ℚ
  predicates : List JoinPred
  deriving DecidableEq, Repr

/-- `estimateJoinCost(left, right, predicates, mask)`: nested-loop cost by
default, hash join when an equality predicate applies and is cheaper,
merge join when `canUseMergeJoin` holds and is cheaper.  `mlog2` stands
for the `Math.log2` of the merge branch (dead code: `canUseMergeJoin` is
constantly false, see `canUseMergeJoin_false`). -/
def estimateJoinCost (mlog2 : ℚ → ℚ) (predicates : List JoinPred) (mask : Nat)
    (leftCard rightCard : ℚ) : JoinCostResult :=
  let applicable := predicates.filter (fun p => isPredicateApplicable p mask)
  let selectivity := estimateSelectivity applicable
  let cardinality := leftCard * rightCard * selectivity
  let m1 : String × ℚ := ("NESTED_LOOP", leftCard * rightCard)
  let m2 : String × ℚ :=
    if applicable.any (fun p => p.ptype == "EQUALITY") then
      let hashCost := leftCard + rightCard
      if hashCost < m1.2 then ("HASH_JOIN", hashCost) else m1
    else m1
  let m3 : String × ℚ :=
    if canUseMergeJoin applicable then
      let mergeCost := leftCard * mlog2 leftCard + rightCard * mlog2 rightCard
      if mergeCost < m2.2 then ("MERGE_JOIN", mergeCost) else m2
    else m2
  ⟨m3.2, m3.1, cardinality, applicable⟩

/-- One entry of the join-order DP table. -/
structure DPEntry where
  cost : ℚ
  plan : FromNode
  cardinality : ℚ
  deriving DecidableEq, Repr

/-- The DP table keyed by bitmask. -/
def DPMap : Type := Nat → Option DPEntry

/-- The empty DP table. -/
def dpEmpty : DPMap := fun _ => none

/-- `dp.set(mask, e)`. -/
def dpInsert (dp : DPMap) (mask : Nat) (e : DPEntry) : DPMap :=
  fun m => if m = mask then some e else dp m

/-- The singleton-mask initialization loop of `optimizeJoinOrder`. -/
def dpInit (stats : Stats) (tables : List FromNode) : DPMap :=
  tables.enum.foldl
    (fun dp it =>
      dpInsert dp (1 <<< it.1)
        ⟨(getTableScanCost stats it.2 : ℚ), it.2,
         (getTableCardinality stats it.2 : ℚ)⟩)
    dpEmpty

/-- `generateCombinations`' recursive generator (argument order rearranged
so that the remaining-count drives the recursion). -/
def genCombAux (n : Nat) : Nat → Nat → Nat → List Nat
  | 0, _, cur => [cur]
  | rem + 1, start, cur =>
    (List.range' start (n - start)).flatMap
      (fun i => genCombAux n rem (i + 1) (cur ||| (1 <<< i)))

/-- `generateCombinations(n, k)`: all bitmasks of `k` of the low `n` bits,
in the source's depth-first order. -/
def generateCombinations (n k : Nat) : List Nat :=
  genCombAux n k 0 0

/-- The descending submask walk `subset = (subset-1) & mask` starting at
`s` (inclusive), stopping at zero. -/
def submasksFrom (mask s : Nat) : List Nat :=
  if _h : s = 0 then []
  else s :: submasksFrom mask ((s - 1) &&& mask)
termination_by s
decreasing_by
  have h1 : (s - 1) &&& mask ≤ s - 1 := Nat.and_le_left
  omega

/-- One candidate bipartition step of the inner minimization loop of
`optimizeJoinOrder`: skip the trivial or mirrored split, skip splits
without DP entries, otherwise keep the candidate when strictly cheaper
than the best so far (none plays the role of the initial Infinity). -/
def dpBestStep (mlog2 : ℚ → ℚ) (preds : List JoinPred) (dp : DPMap)
    (mask : Nat) (best : Option DPEntry) (subset : Nat) : Option DPEntry :=
  let complement := mask ^^^ subset
  if complement = 0 ∨ complement ≥ subset then best
  else
    match dp subset, dp complement with
    | some l, some r =>
      let jc := estimateJoinCost mlog2 preds mask l.cardinality r.cardinality
      let totalCost := l.cost + r.cost + jc.cost
      let isBetter :=
        match best with
        | none => true
        | some b => totalCost < b.cost
      if isBetter then
        some ⟨totalCost,
              .join none l.plan r.plan none (some jc.method) (some jc.predicates),
              jc.cardinality⟩
      else best
    | _, _ => best

/-- The best entry over all bipartitions of `mask`. -/
def dpBest (mlog2 : ℚ → ℚ) (preds : List JoinPred) (dp : DPMap) (mask : Nat) :
    Option DPEntry :=
  (submasksFrom mask mask).foldl (dpBestStep mlog2 preds dp mask) none

/-- Processing of one mask: record the best plan when one was found. -/
def dpStep (mlog2 : ℚ → ℚ) (preds : List JoinPred) (dp : DPMap) (mask : Nat) :
    DPMap :=
  match dpBest mlog2 preds dp mask with
  | some e => dpInsert dp mask e
  | none => dp

/-- The full DP table build of `optimizeJoinOrder`: singleton entries, then
every mask of each size from 2 to `n` in `generateCombinations` order. -/
def runDP (mlog2 : ℚ → ℚ) (stats : Stats) (preds : List JoinPred)
    (tables : List FromNode) : DPMap :=
  let n := tables.length
  let dp0 := dpInit stats tables
  (List.range' 2 (n - 1)).foldl
    (fun dp size => (generateCombinations n size).foldl (dpStep mlog2 preds) dp)
    dp0

/-- `optimizeJoinOrder(ast)`: a no-op unless the `from` array has more than
one element; otherwise replace `from` by the full-mask DP plan. -/
def optimizeJoinOrder (mlog2 : ℚ → ℚ) (stats : Stats) (ast : SelectAst) :
    SelectAst :=
  if ast.«from».length ≤ 1 then ast
  else
    let tables := extractTables ast.«from»
    let preds := extractJoinPredicates ast
    let dp := runDP mlog2 stats preds tables
    let fullMask := (1 <<< tables.length) - 1
    match dp fullMask with
    | some result => { ast with «from» := [result.plan] }
    | none => ast

/-! ## Subquery flattening and predicate pushdown (pass-through stages) -/

/-- `flattenExists` (implementation omitted in the source). -/
def flattenExists (w : Expr) (_ast : SelectAst) : Expr := w

/-- `flattenIn` (implementation omitted in the source). -/
def flattenIn (w : Expr) (_ast : SelectAst) : Expr := w

/-- `optimizeScalarSubqueries` (implementation omitted in the source). -/
def optimizeScalarSubqueries (ast : SelectAst) : SelectAst := ast

/-- `flattenSubqueries(ast)`: EXISTS/IN rewrites and scalar subquery
optimization, all of which are pass-throughs in the source. -/
def flattenSubqueries (ast : SelectAst) : SelectAst :=
  let ast1 :=
    match ast.«where» with
    | some w => { ast with «where» := some (flattenExists w ast) }
    | none => ast
  let ast2 :=
    match ast1.«where» with
    | some w => { ast1 with «where» := some (flattenIn w ast1) }
    | none => ast1
  optimizeScalarSubqueries ast2

/-- `extractPredicates(where)`: the top-level AND-conjuncts. -/
def extractPredicates : Expr → List Expr
  | .binaryOp op l r =>
    if op = "AND" then extractPredicates l ++ extractPredicates r
    else [.binaryOp op l r]
  | e => [e]

/-- `applyPushedPredicates(from, pushed)` (implementation omitted in the
source: returns `from` unchanged, so the pushdown map computed by
`pushDownPredicates` is discarded). -/
def applyPushedPredicates (fs : List FromNode) : List FromNode := fs

/-- `pushDownPredicates(ast)`: computes single-table conjuncts and hands
them to `applyPushedPredicates`, which ignores them; the AST round-trips. -/
def pushDownPredicates (ast : SelectAst) : SelectAst :=
  match ast.«where» with
  | none => ast
  | some _ => { ast with «from» := applyPushedPredicates ast.«from» }

/-! ## Index selection -/

/-- A candidate index as produced by `getCandidateIndexes`:
`{ name, ...index }`. -/
structure CandIndex where
  name : String
  table : String
  columns : List String
  unique : Bool
  selectivity : ℚ
  deriving DecidableEq, Repr

/-- `getCandidateIndexes(ast)`: every catalog index, in insertion order. -/
def getCandidateIndexes (idxs : IndexCatalog) : List CandIndex :=
  idxs.map (fun ni => ⟨ni.1, ni.2.table, ni.2.columns, ni.2.unique, ni.2.selectivity⟩)

/-- `estimateIndexCost(index, ast)`: base table scan cost scaled by the
index selectivity (`|| 0.1` catches a zero selectivity). -/
def estimateIndexCost (stats : Stats) (index : CandIndex) : ℚ :=
  let baseTableCost : ℚ := (getTableScanCostN stats index.table : ℚ)
  let selectivity := if index.selectivity = 0 then 1/10 else index.selectivity
  baseTableCost * selectivity

/-- `selectIndexes(ast)`: per base table, the candidate index that beats
the table-scan cost, if any. -/
def selectIndexes (stats : Stats) (idxs : IndexCatalog) (ast : SelectAst) :
    List CandIndex :=
  let candidateIndexes := getCandidateIndexes idxs
  let tables := extractTables ast.«from»
  tables.foldl
    (fun acc t =>
      let tableIndexes := candidateIndexes.filter
        (fun idx =>
          match fromName t with
          | some n => idx.table == n
          | none => false)
      if tableIndexes.isEmpty then acc
      else
        let best := tableIndexes.foldl
          (fun (b : Option CandIndex × ℚ) idx =>
            let cost := estimateIndexCost stats idx
            if cost < b.2 then (some idx, cost) else b)
          (none, (getTableScanCost stats t : ℚ))
        match best.1 with
        | some bi => acc ++ [bi]
        | none => acc)
    []

/-! ## Execution plan generation -/

mutual
/-- A physical plan node.  Scan/Filter/Group/Sort/Limit/QueryPlan nodes
carry the fixed `type` strings of their construction sites; join nodes
carry a variable tag (`from.method || 'NESTED_LOOP_JOIN'`). -/
inductive PlanNode where
  | tableScan (table : String)
  | indexScan (table index : String)
  | pjoin (tag : String) (condition : Option Expr) (children : PlanList)
  | filter (predicate : Expr) (children : PlanList)
  | group (expressions : List Expr) (children : PlanList)
  | sort (expressions : List OrderItem) (children : PlanList)
  | plimit (count : TValue) (children : PlanList)
  | queryPlan (children : PlanList)
  deriving DecidableEq, Repr

/-- Children arrays of plan nodes (a mutual inductive so that recursion
and induction over plans stay structural). -/
inductive PlanList where
  | nil
  | cons (head : PlanNode) (tail : PlanList)
  deriving DecidableEq, Repr
end

/-- Convert a list to a `PlanList`. -/
def PlanList.ofList : List PlanNode → PlanList
  | [] => .nil
  | p :: t => .cons p (PlanList.ofList t)

/-- Convert a `PlanList` to a list. -/
def PlanList.toList : PlanList → List PlanNode
  | .nil => []
  | .cons p t => p :: t.toList

/-- `generateFromPlan(from, indexes)`: an index or table scan for a TABLE
node (first selected index whose `table` matches wins), and a join node
tagged `from.method || 'NESTED_LOOP_JOIN'` with both children lowered. -/
def generateFromPlan (indexes : List CandIndex) : FromNode → PlanNode
  | .table name _ =>
    match indexes.find? (fun idx => idx.table == name) with
    | some index => .indexScan name index.name
    | none => .tableScan name
  | .join _ l r cond method _ =>
    .pjoin (match method with | some m => m | none => "NESTED_LOOP_JOIN") cond
      (.cons (generateFromPlan indexes l) (.cons (generateFromPlan indexes r) .nil))

/-- `generateExecutionPlan(ast, indexes)`: a QUERY_PLAN root whose children
array receives, in order, the lowered first `from` entry, then a FILTER,
GROUP, SORT and LIMIT node for each present clause — each of these pushed
with an empty `children` array of its own. -/
def generateExecutionPlan (ast : SelectAst) (indexes : List CandIndex) :
    PlanNode :=
  let srcPart : List PlanNode :=
    match ast.«from» with
    | [] => []
    | f :: _ => [generateFromPlan indexes f]
  let wherePart : List PlanNode :=
    match ast.«where» with
    | some w => [.filter w .nil]
    | none => []
  let groupPart : List PlanNode :=
    match ast.groupBy with
    | some es => [.group es .nil]
    | none => []
  let sortPart : List PlanNode :=
    match ast.orderBy with
    | some items => [.sort items .nil]
    | none => []
  let limitPart : List PlanNode :=
    match ast.limit with
    | some v => if jsTruthy v then [.plimit v .nil] else []
    | none => []
  .queryPlan (PlanList.ofList
    (srcPart ++ wherePart ++ groupPart ++ sortPart ++ limitPart))

/-! ## Cardinality and cost estimation over plans -/

/-- `estimateJoinSelectivity(join)` from the join's `condition` property
(0.1 when absent). -/
def estimateJoinSelectivityOf (cond : Option Expr) : ℚ :=
  match cond with
  | some c => estimatePredicateSelectivityE c
  | none => 1/10

mutual
/-- `estimateCardinality(node)`: table scans return the statistics row
count; FILTER scales by its predicate's selectivity (the singleton-list
`estimateSelectivity` product); JOIN/NESTED_LOOP_JOIN/HASH_JOIN tags
multiply both children's cardinalities by the join selectivity; every
other node forwards its first child's cardinality (1 when childless). -/
def estimateCardinality (stats : Stats) : PlanNode → ℚ
  | .tableScan table => (getTableScanCostN stats table : ℚ)
  | .indexScan _ _ => 1
  | .pjoin tag cond cs =>
    if tag = "JOIN" ∨ tag = "NESTED_LOOP_JOIN" ∨ tag = "HASH_JOIN" then
      estimateCardinalityHead stats cs * estimateCardinalitySecond stats cs *
        estimateJoinSelectivityOf cond
    else estimateCardinalityHead stats cs
  | .filter pred cs =>
    estimateCardinalityHead stats cs * estimatePredicateSelectivityE pred
  | .group _ cs => estimateCardinalityHead stats cs
  | .sort _ cs => estimateCardinalityHead stats cs
  | .plimit _ cs => estimateCardinalityHead stats cs
  | .queryPlan cs => estimateCardinalityHead stats cs

/-- `estimateCardinality(node.children[0])`, including the `!node => 1`
base case for a missing child. -/
def estimateCardinalityHead (stats : Stats) : PlanList → ℚ
  | .nil => 1
  | .cons h _ => estimateCardinality stats h

/-- `estimateCardinality(node.children[1])`. -/
def estimateCardinalitySecond (stats : Stats) : PlanList → ℚ
  | .nil => 1
  | .cons _ t => estimateCardinalityHead stats t
end

/-- Fuel-driven halving loop computing the ceiling of the base-2
logarithm of `n` (0 for `n` at most 1); the fuel always suffices because
`ceilLog2` starts it at `n`. -/
def ceilLog2Aux : Nat → Nat → Nat
  | 0, _ => 0
  | fuel + 1, n => if n ≤ 1 then 0 else ceilLog2Aux fuel ((n + 1) / 2) + 1

/-- `Math.ceil(Math.log2(n))` on a positive row count: the ceiling of the
base-2 logarithm, as an executable function (shown equal to `Nat.clog 2`
in `ceilLog2_eq_clog`). -/
def ceilLog2 (n : Nat) : Nat := ceilLog2Aux n n

/-- `ceilLog2Aux` computes `Nat.clog 2` whenever the fuel covers its
argument. -/
lemma ceilLog2Aux_eq (fuel n : Nat) (h : n ≤ fuel) :
    ceilLog2Aux fuel n = Nat.clog 2 n := by
  induction fuel generalizing n with
  | zero =>
    have hn : n = 0 := by omega
    subst hn
    simp [ceilLog2Aux]
  | succ k ih =>
    rw [ceilLog2Aux]
    by_cases h1 : n ≤ 1
    · rw [if_pos h1]
      rcases Nat.le_one_iff_eq_zero_or_eq_one.mp h1 with rfl | rfl <;> simp
    · rw [if_neg h1]
      have h2 : 2 ≤ n := by omega
      rw [ih ((n + 1) / 2) (by omega)]
      rw [Nat.clog_of_two_le (by norm_num) h2]
      norm_num

/-- `ceilLog2` is the base-2 ceiling logarithm. -/
lemma ceilLog2_eq_clog (n : Nat) : ceilLog2 n = Nat.clog 2 n :=
  ceilLog2Aux_eq n n le_rfl

/-- `ceilLog2` is monotone. -/
lemma ceilLog2_mono {a b : Nat} (h : a ≤ b) : ceilLog2 a ≤ ceilLog2 b := by
  rw [ceilLog2_eq_clog, ceilLog2_eq_clog]
  exact Nat.clog_mono_right 2 h

/-- `getIndexScanCost(indexName, tableName)`: B-tree height
(`Math.ceil(Math.log2(rowCount))`, modelled as `ceilLog2`) plus
`rowCount * index.selectivity`; 100 when statistics or index are missing. -/
def getIndexScanCost (stats : Stats) (idxs : IndexCatalog)
    (indexName tableName : String) : ℚ :=
  match stats tableName, indexLookup idxs indexName with
  | some st, some index =>
    (ceilLog2 st.rowCount : ℚ) + (st.rowCount : ℚ) * index.selectivity
  | _, _ => 100

mutual
/-- `estimatePlanCost(node)`: the recursive cost of a physical plan node.
The SORT case multiplies the child cardinality by its real base-2
logarithm; every tag without its own case (GROUP, LIMIT, QUERY_PLAN, and
join tags other than NESTED_LOOP_JOIN/HASH_JOIN such as the
`NESTED_LOOP` tag produced by the join-order search) sums its children. -/
noncomputable def estimatePlanCost (stats : Stats) (idxs : IndexCatalog) :
    PlanNode → ℝ
  | .tableScan table => (getTableScanCostN stats table : ℝ)
  | .indexScan table index =>
    ((getIndexScanCost stats idxs index table : ℚ) : ℝ)
  | .pjoin tag _ cs =>
    if tag = "NESTED_LOOP_JOIN" then
      estimatePlanCostHead stats idxs cs + estimatePlanCostSecond stats idxs cs +
        (estimateCardinalityHead stats cs : ℝ) *
          (estimateCardinalitySecond stats cs : ℝ)
    else if tag = "HASH_JOIN" then
      estimatePlanCostHead stats idxs cs + estimatePlanCostSecond stats idxs cs +
        (estimateCardinalityHead stats cs : ℝ) +
          (estimateCardinalitySecond stats cs : ℝ)
    else estimatePlanCostSum stats idxs cs
  | .filter _ cs =>
    estimatePlanCostHead stats idxs cs +
      (estimateCardinalityHead stats cs : ℝ) * (1 / 10 : ℝ)
  | .sort _ cs =>
    estimatePlanCostHead stats idxs cs +
      (estimateCardinalityHead stats cs : ℝ) *
        Real.logb 2 ((estimateCardinalityHead stats cs : ℚ) : ℝ)
  | .group _ cs => estimatePlanCostSum stats idxs cs
  | .plimit _ cs => estimatePlanCostSum stats idxs cs
  | .queryPlan cs => estimatePlanCostSum stats idxs cs

/-- `estimatePlanCost(node.children[0])`, including the `!node => 0` base
case for a missing child. -/
noncomputable def estimatePlanCostHead (stats : Stats) (idxs : IndexCatalog) :
    PlanList → ℝ
  | .nil => 0
  | .cons h _ => estimatePlanCost stats idxs h

/-- `estimatePlanCost(node.children[1])`. -/
noncomputable def estimatePlanCostSecond (stats : Stats) (idxs : IndexCatalog) :
    PlanList → ℝ
  | .nil => 0
  | .cons _ t => estimatePlanCostHead stats idxs t

/-- The default-case reduction: the sum of the children's costs. -/
noncomputable def estimatePlanCostSum (stats : Stats) (idxs : IndexCatalog) :
    PlanList → ℝ
  | .nil => 0
  | .cons h t => estimatePlanCost stats idxs h + estimatePlanCostSum stats idxs t
end

/-- `estimateCost(plan)`. -/
noncomputable def estimateCost (stats : Stats) (idxs : IndexCatalog)
    (plan : PlanNode) : ℝ :=
  estimatePlanCost stats idxs plan

/-! ## The optimization pipeline -/

/-- The `{ ast, plan, cost, indexes }` record returned by `optimize`. -/
structure OptimizeResult where
  ast : SelectAst
  plan : PlanNode
  cost : ℝ
  indexes : List CandIndex

/-- `optimize(ast)`: rewrite, join-order optimization, subquery
flattening, predicate pushdown, index selection, plan generation, cost
estimation. -/
noncomputable def optimize (mlog2 : ℚ → ℚ) (stats : Stats)
    (idxs : IndexCatalog) (ast : SelectAst) : OptimizeResult :=
  let ast1 := rewriteQuery ast
  let ast2 := optimizeJoinOrder mlog2 stats ast1
  let ast3 := flattenSubqueries ast2
  let ast4 := pushDownPredicates ast3
  let indexes := selectIndexes stats idxs ast4
  let plan := generateExecutionPlan ast4 indexes
  let cost := estimateCost stats idxs plan
  ⟨ast4, plan, cost, indexes⟩

/-! ## The `CostModel` class -/

/-- `CostModel.cpuCostPerTuple`. -/
def cpuCostPerTuple : ℚ := 1/100

/-- `CostModel.ioCostPerPage`. -/
def ioCostPerPage : ℚ := 1

/-- `CostModel.hashTableBuildCost`. -/
def hashTableBuildCost : ℚ := 1/10

/-- `CostModel.sortCostFactor`. -/
def sortCostFactor : ℚ := 1/20

/-- The INDEX_SCAN branch of `CostModel.calculateCost`:
`ceil(log2(inputSize)) * ioCostPerPage + inputSize * selectivity *
cpuCostPerTuple`.  The optimizer pipeline never invokes
`calculateCost`; plan costing uses `getIndexScanCost` instead. -/
def calculateCostIndexScan (inputSize : Nat) (selectivity : ℚ) : ℚ :=
  (ceilLog2 inputSize : ℚ) * ioCostPerPage +
    (inputSize : ℚ) * selectivity * cpuCostPerTuple

/-! ## Concrete fixtures

`exStats`/`exIndexes` are the statistics and index catalog of the usage
example at the bottom of the source file (row counts 100000/1000000,
index selectivities 0.00001); `sqlE2E` is the end-to-end query of the
specification's testable properties. -/

/-- A stand-in for the `Math.log2` of the dead merge-join branch. -/
def mlog0 : ℚ → ℚ := fun _ => 0

/-- Example statistics: users 100000 rows, posts 1000000 rows. -/
def exStats : Stats := fun n =>
  if n = "users" then some ⟨100000⟩
  else if n = "posts" then some ⟨1000000⟩
  else none

/-- Example index catalog, in insertion order. -/
def exIndexes : IndexCatalog :=
  [("users_email_idx", ⟨"users", ["email"], true, 1/100000⟩),
   ("posts_user_id_idx", ⟨"posts", ["user_id"], false, 1/100000⟩)]

/-- The end-to-end SQL text (the apostrophes around the string literal are
assembled from `quoteChar`). -/
def sqlE2E : String :=
  "SELECT u.name, p.title FROM users u JOIN posts p ON u.id = p.user_id WHERE u.email = "
    ++ String.singleton quoteChar ++ "x@example.com" ++ String.singleton quoteChar
    ++ " LIMIT 10"

/-- The AST `parseSQL sqlE2E` produces. -/
def e2eAst : SelectAst :=
  { columns := [.column ["u", "name"], .column ["p", "title"]]
    «from» := [.join (some "JOIN") (.table "users" (some "u"))
                 (.table "posts" (some "p"))
                 (some (.binaryOp "=" (.column ["u", "id"])
                    (.column ["p", "user_id"]))) none none]
    «where» := some (.binaryOp "=" (.column ["u", "email"])
                 (.literal (some .STRING) (.str "x@example.com")))
    groupBy := none
    having := none
    orderBy := none
    limit := some (.num 10) }

/-- The execution plan `optimize` produces for `e2eAst` over
`exStats`/`exIndexes`: a flat QUERY_PLAN whose children are the join, a
childless FILTER and a childless LIMIT. -/
def e2ePlan : PlanNode :=
  .queryPlan
    (.cons (.pjoin "NESTED_LOOP_JOIN"
        (some (.binaryOp "=" (.column ["u", "id"]) (.column ["p", "user_id"])))
        (.cons (.indexScan "users" "users_email_idx")
          (.cons (.indexScan "posts" "posts_user_id_idx") .nil)))
      (.cons (.filter (.binaryOp "=" (.column ["u", "email"])
          (.literal (some .STRING) (.str "x@example.com"))) .nil)
        (.cons (.plimit (.num 10) .nil) .nil)))

/-- Statistics for the 3-table DP instance: A 100, B 10000, C 50. -/
def stats3 : Stats := fun n =>
  if n = "A" then some ⟨100⟩
  else if n = "B" then some ⟨10000⟩
  else if n = "C" then some ⟨50⟩
  else none

/-- A query whose `from` array lists three tables (comma join). -/
def astABC : SelectAst :=
  { columns := [.wildcard]
    «from» := [.table "A" none, .table "B" none, .table "C" none]
    «where» := none, groupBy := none, having := none, orderBy := none
    limit := none }

/-- The join tree the DP search selects for `astABC` over `stats3`:
(C ⋈ A) ⋈ B, all nested-loop. -/
def abcPlan : FromNode :=
  .join none
    (.join none (.table "C" none) (.table "A" none) none
      (some "NESTED_LOOP") (some []))
    (.table "B" none) none (some "NESTED_LOOP") (some [])

/-- A query whose `from` array has a single entry that is a JOIN of two
base tables (the shape `parseFromClause` gives every JOIN query). -/
def astNested : SelectAst :=
  { columns := [.wildcard]
    «from» := [.join (some "JOIN") (.table "users" (some "u"))
                 (.table "posts" (some "p"))
                 (some (.binaryOp "=" (.column ["u", "id"])
                    (.column ["p", "user_id"]))) none none]
    «where» := none, groupBy := none, having := none, orderBy := none
    limit := none }

/-! ## Observables -/

/-- Is the root of this plan a LIMIT node? -/
def rootIsLimit : PlanNode → Bool
  | .plimit _ _ => true
  | _ => false

/-- Does this plan node, viewed as a clause node, have an empty `children`
array whenever it is a FILTER/GROUP/SORT/LIMIT node? -/
def clauseChildless : PlanNode → Bool
  | .filter _ cs => (match cs with | .nil => true | _ => false)
  | .group _ cs => (match cs with | .nil => true | _ => false)
  | .sort _ cs => (match cs with | .nil => true | _ => false)
  | .plimit _ cs => (match cs with | .nil => true | _ => false)
  | _ => true

/-- The children of a `PlanList`, all childless in the clause sense. -/
def clausesChildless : PlanList → Bool
  | .nil => true
  | .cons c t => clauseChildless c && clausesChildless t

/-- Is this plan a QUERY_PLAN root whose clause children are all flat
siblings (empty own `children`)? -/
def flatClauses : PlanNode → Bool
  | .queryPlan cs => clausesChildless cs
  | _ => false

/-- Is every JOIN node in this FROM tree one whose `method` property is set
to NESTED_LOOP (the shape of every node the DP search constructs)? -/
def dpPlanOK : FromNode → Bool
  | .table _ _ => true
  | .join _ l r _ method _ =>
    method == some "NESTED_LOOP" && dpPlanOK l && dpPlanOK r

/-! ## Claim C6: tokenizing the wildcard query -/

/-- C6 counterexample: tokenizing `SELECT * FROM users` does not yield the
claimed type/value sequence KEYWORD(SELECT), SPECIAL(*), KEYWORD(FROM),
IDENTIFIER(users) — the `*` token is classified by the operator regexp,
not as a SPECIAL character. -/
theorem C6_counterexample :
    ¬ ((tokenize "SELECT * FROM users").map (fun t => (t.type, t.value)) =
      [(.KEYWORD, .str "SELECT"), (.SPECIAL, .str "*"),
       (.KEYWORD, .str "FROM"), (.IDENTIFIER, .str "users")]) := by
  decide

/-- C6 (amended): tokenizing `SELECT * FROM users` yields exactly 4 tokens,
in order KEYWORD(SELECT), OPERATOR(*), KEYWORD(FROM), IDENTIFIER(users),
at source offsets 0, 7, 9 and 14. -/
theorem C6_amended_thm :
    tokenize "SELECT * FROM users" =
      [⟨.KEYWORD, .str "SELECT", 0⟩, ⟨.OPERATOR, .str "*", 7⟩,
       ⟨.KEYWORD, .str "FROM", 9⟩, ⟨.IDENTIFIER, .str "users", 14⟩] := by
  decide

/-! ## Claim C9: how parsing fails -/

set_option maxRecDepth 100000 in
set_option maxHeartbeats 2000000 in
/-- C9 counterexample: on the input `SELECT` the parse does not fail with a
parse error carrying the offending token and its position — it fails with
the model's TypeError, mirroring the source's
`this.current().type` dereference of `undefined` at end of input. -/
theorem C9_counterexample :
    parseSQL "SELECT" = .error .typeError := by
  rfl

/- The amended C9 statement, `C9_amended_thm`, follows the error-shape
development under "The shape of reader errors" further below: every
failure of the reader, on every input, is classified there. -/

/-! ## Claim C5: the index-scan cost formula -/

set_option maxRecDepth 100000 in
/-- C5 counterexample: for the example catalog's users table
(100000 rows, index selectivity 1/100000) the estimated cost of an
INDEX_SCAN plan node is `ceil(log2 100000) + 100000 * (1/100000) = 18`,
not the claimed
`ceil(log2 100000) * ioCostPerPage + 100000 * (1/100000) * cpuCostPerTuple
 = 17.01` (the INDEX_SCAN branch of `CostModel.calculateCost`, which the
plan-costing path never invokes). -/
theorem C5_counterexample :
    estimatePlanCost exStats exIndexes (.indexScan "users" "users_email_idx") ≠
      ((calculateCostIndexScan 100000 (1/100000) : ℚ) : ℝ) := by
  have h1 : getIndexScanCost exStats exIndexes "users_email_idx" "users" = 18 := by
    with_unfolding_all decide
  have h2 : calculateCostIndexScan 100000 (1/100000) = 1701/100 := by
    with_unfolding_all decide
  simp only [estimatePlanCost, h1, h2]
  norm_num

/-- C5 (amended): for every index-scan plan node over a table with known
statistics and a known index, the estimated cost equals
`ceil(log2(rowCount)) + rowCount * selectivity` — with no
`cpuCostPerTuple` factor on the retrieval term (and the `ioCostPerPage`
factor of the claimed formula invisible because that constant is 1). -/
theorem C5_amended_thm (stats : Stats) (idxs : IndexCatalog)
    (tname iname : String) (st : TableStats) (index : IndexInfo)
    (hs : stats tname = some st) (hi : indexLookup idxs iname = some index)
    (_hr : 1 ≤ st.rowCount) :
    estimatePlanCost stats idxs (.indexScan tname iname) =
      (((ceilLog2 st.rowCount : ℚ) + (st.rowCount : ℚ) * index.selectivity : ℚ) : ℝ) := by
  simp only [estimatePlanCost, getIndexScanCost, hs, hi]

/-- C5 witness: the amended formula evaluated on the example users table. -/
theorem C5_witness :
    exStats "users" = some ⟨100000⟩ ∧
    indexLookup exIndexes "users_email_idx" =
      some ⟨"users", ["email"], true, 1/100000⟩ ∧
    1 ≤ 100000 ∧
    estimatePlanCost exStats exIndexes (.indexScan "users" "users_email_idx") =
      (((ceilLog2 100000 : ℚ) + (100000 : ℚ) * (1/100000) : ℚ) : ℝ) :=
  ⟨by rfl, by rfl, by decide,
   C5_amended_thm exStats exIndexes "users" "users_email_idx" ⟨100000⟩
     ⟨"users", ["email"], true, 1/100000⟩ (by rfl) (by rfl) (by decide)⟩

/-! ## Claim C2: when the join-order search runs -/

/-- A query whose `from` array holds a single plain table. -/
def astOneTable : SelectAst :=
  { columns := [.wildcard]
    «from» := [.table "users" none]
    «where» := none, groupBy := none, having := none, orderBy := none
    limit := none }

set_option maxRecDepth 100000 in
/-- C2 counterexample: `astNested` reaches two base tables through its one
nested JOIN entry, yet `optimizeJoinOrder` returns it unchanged — the
guard tests the length of the `from` array, not the base-table count, so
no DP search runs and no optimized join node replaces the `from` list. -/
theorem C2_counterexample :
    (extractTables astNested.«from»).length = 2 ∧
    optimizeJoinOrder mlog0 exStats astNested = astNested :=
  ⟨by decide, by decide⟩

set_option maxRecDepth 100000 in
/-- C2 (amended): `optimizeJoinOrder` runs the DP search exactly when the
`from` array has more than one element: any AST whose `from` list has at
most one entry — even a nested JOIN reaching several base tables — is
returned unchanged, and a multi-element `from` (the comma-join form) is
replaced by the single DP join tree, as on the 3-table instance. -/
theorem C2_amended_thm :
    (∀ (mlog2 : ℚ → ℚ) (stats : Stats) (ast : SelectAst),
        ast.«from».length ≤ 1 → optimizeJoinOrder mlog2 stats ast = ast) ∧
    optimizeJoinOrder mlog0 stats3 astABC = { astABC with «from» := [abcPlan] } := by
  constructor
  · intro mlog2 stats ast h
    unfold optimizeJoinOrder
    rw [if_pos h]
  · with_unfolding_all decide

set_option maxRecDepth 100000 in
/-- C2 witness: the no-op direction applied to a one-table query. -/
theorem C2_witness :
    astOneTable.«from».length ≤ 1 ∧
    optimizeJoinOrder mlog0 exStats astOneTable = astOneTable :=
  ⟨by decide, C2_amended_thm.1 mlog0 exStats astOneTable (by decide)⟩

/-! ## Claim C4: the join predicates are empty and joins are nested-loop -/

/-- `hasIndex` is constantly false, so `canUseMergeJoin` never holds: the
merge-join branch of `estimateJoinCost` is dead code. -/
lemma canUseMergeJoin_false (preds : List JoinPred) :
    canUseMergeJoin preds = false := by
  simp [canUseMergeJoin, hasIndex]

/-- `estimateJoinCost` on the empty predicate list: nested-loop join,
cost and cardinality both the product of the input cardinalities. -/
lemma estimateJoinCost_nil (mlog2 : ℚ → ℚ) (mask : Nat) (lc rc : ℚ) :
    estimateJoinCost mlog2 [] mask lc rc = ⟨lc * rc, "NESTED_LOOP", lc * rc, []⟩ := by
  simp [estimateJoinCost, estimateSelectivity, canUseMergeJoin]

/-- Every DP-map entry has a plan made of tables and NESTED_LOOP joins. -/
def DPOK (dp : DPMap) : Prop :=
  ∀ m e, dp m = some e → dpPlanOK e.plan = true

/-- The empty DP map is trivially OK. -/
lemma dpOK_empty : DPOK dpEmpty := by
  intro m e h
  simp [dpEmpty] at h

/-- Inserting an OK entry preserves `DPOK`. -/
lemma dpOK_insert {dp : DPMap} {mask : Nat} {e : DPEntry} (hdp : DPOK dp)
    (he : dpPlanOK e.plan = true) : DPOK (dpInsert dp mask e) := by
  intro m e' h
  by_cases hm : m = mask
  · subst hm
    simp [dpInsert] at h
    subst h
    exact he
  · rw [dpInsert, if_neg hm] at h
    exact hdp m e' h

/-- The nodes `extractTablesNode` returns are TABLE nodes. -/
lemma extractTablesNode_table (f : FromNode) :
    ∀ t ∈ extractTablesNode f, ∃ n a, t = .table n a := by
  induction f with
  | table n a => intro t ht; simp [extractTablesNode] at ht; exact ⟨n, a, ht⟩
  | join jt l r cond m p ihl ihr =>
    intro t ht
    rw [extractTablesNode] at ht
    rcases List.mem_append.mp ht with h | h
    · exact ihl t h
    · exact ihr t h

/-- The nodes `extractTables` returns are TABLE nodes. -/
lemma extractTables_table (fs : List FromNode) :
    ∀ t ∈ extractTables fs, ∃ n a, t = .table n a := by
  intro t ht
  rw [extractTables] at ht
  rcases List.mem_flatten.mp ht with ⟨l, hl, htl⟩
  rcases List.mem_map.mp hl with ⟨f, _, rfl⟩
  exact extractTablesNode_table f t htl

/-- `dpInit` over TABLE nodes yields an OK map. -/
lemma dpOK_init (stats : Stats) (tables : List FromNode)
    (h : ∀ t ∈ tables, dpPlanOK t = true) : DPOK (dpInit stats tables) := by
  rw [dpInit]
  have main : ∀ (l : List (Nat × FromNode)) (dp : DPMap), DPOK dp →
      (∀ it ∈ l, dpPlanOK it.2 = true) →
      DPOK (l.foldl
        (fun dp it =>
          dpInsert dp (1 <<< it.1)
            ⟨(getTableScanCost stats it.2 : ℚ), it.2,
             (getTableCardinality stats it.2 : ℚ)⟩) dp) := by
    intro l
    induction l with
    | nil => intro dp hdp _; exact hdp
    | cons it rest ih =>
      intro dp hdp hl
      rw [List.foldl_cons]
      exact ih _ (dpOK_insert hdp (hl it (List.mem_cons_self it rest)))
        (fun x hx => hl x (List.mem_cons_of_mem it hx))
  refine main tables.enum dpEmpty dpOK_empty ?_
  intro it hit
  exact h it.2 (List.snd_mem_of_mem_enum hit)

/-- One step of the bipartition minimization preserves plan shape. -/
lemma dpBestStep_ok {mlog2 : ℚ → ℚ} {dp : DPMap} {mask : Nat}
    {best : Option DPEntry} {subset : Nat} (hdp : DPOK dp)
    (hb : ∀ e, best = some e → dpPlanOK e.plan = true) :
    ∀ e, dpBestStep mlog2 [] dp mask best subset = some e →
      dpPlanOK e.plan = true := by
  intro e he
  rw [dpBestStep] at he
  by_cases hskip : mask ^^^ subset = 0 ∨ mask ^^^ subset ≥ subset
  · rw [if_pos hskip] at he
    exact hb e he
  · rw [if_neg hskip] at he
    rcases hl : dp subset with _ | l <;> rcases hr : dp (mask ^^^ subset) with _ | r <;>
      simp only [hl, hr] at he
    · exact hb e he
    · exact hb e he
    · exact hb e he
    · rcases hbest : best with _ | b
      · subst hbest
        simp only [estimateJoinCost_nil] at he
        split at he
        · cases he
          simp only [dpPlanOK]
          rw [hdp subset l hl, hdp (mask ^^^ subset) r hr]
          rfl
        · cases he
      · subst hbest
        simp only [estimateJoinCost_nil] at he
        split at he
        · cases he
          simp only [dpPlanOK]
          rw [hdp subset l hl, hdp (mask ^^^ subset) r hr]
          rfl
        · exact hb e he

/-- The full bipartition minimization yields OK plans. -/
lemma dpBest_ok {mlog2 : ℚ → ℚ} {dp : DPMap} {mask : Nat} (hdp : DPOK dp) :
    ∀ e, dpBest mlog2 [] dp mask = some e → dpPlanOK e.plan = true := by
  rw [dpBest]
  have main : ∀ (l : List Nat) (best : Option DPEntry),
      (∀ e, best = some e → dpPlanOK e.plan = true) →
      ∀ e, l.foldl (dpBestStep mlog2 [] dp mask) best = some e →
        dpPlanOK e.plan = true := by
    intro l
    induction l with
    | nil => intro best hb e he; exact hb e he
    | cons x rest ih =>
      intro best hb e he
      rw [List.foldl_cons] at he
      exact ih _ (dpBestStep_ok hdp hb) e he
  exact main _ none (by intro e he; cases he)

/-- `dpStep` preserves `DPOK` when predicates are empty. -/
lemma dpStep_ok {mlog2 : ℚ → ℚ} {dp : DPMap} {mask : Nat} (hdp : DPOK dp) :
    DPOK (dpStep mlog2 [] dp mask) := by
  rw [dpStep]
  rcases hb : dpBest mlog2 [] dp mask with _ | e
  · exact hdp
  · exact dpOK_insert hdp (dpBest_ok hdp e hb)

/-- Folding `dpStep` over any mask list preserves `DPOK`. -/
lemma dpStep_fold_ok {mlog2 : ℚ → ℚ} (l : List Nat) {dp : DPMap}
    (hdp : DPOK dp) : DPOK (l.foldl (dpStep mlog2 []) dp) := by
  induction l generalizing dp with
  | nil => exact hdp
  | cons x rest ih => exact ih (dpStep_ok hdp)

/-- The DP table built by `runDP` with empty predicates is OK. -/
lemma runDP_ok (mlog2 : ℚ → ℚ) (stats : Stats) (tables : List FromNode)
    (h : ∀ t ∈ tables, dpPlanOK t = true) :
    DPOK (runDP mlog2 stats [] tables) := by
  rw [runDP]
  have main : ∀ (l : List Nat) (dp : DPMap), DPOK dp →
      DPOK (l.foldl
        (fun dp size =>
          (generateCombinations tables.length size).foldl (dpStep mlog2 []) dp)
        dp) := by
    intro l
    induction l with
    | nil => intro dp hdp; exact hdp
    | cons x rest ih =>
      intro dp hdp
      rw [List.foldl_cons]
      exact ih _ (dpStep_fold_ok _ hdp)
  exact main _ _ (dpOK_init stats tables h)

/-- C4: `extractJoinPredicates` always returns the empty list; with empty
predicates `estimateJoinCost` always selects NESTED_LOOP with cost and
output cardinality `leftCard * rightCard` (selectivity 1), never the
hash- or merge-join branch; consequently `optimizeJoinOrder` either
leaves the AST unchanged or replaces `from` by a single plan tree whose
every join node carries method NESTED_LOOP. -/
theorem C4_thm :
    (∀ ast : SelectAst, extractJoinPredicates ast = []) ∧
    (∀ (mlog2 : ℚ → ℚ) (mask : Nat) (lc rc : ℚ),
        estimateJoinCost mlog2 [] mask lc rc =
          ⟨lc * rc, "NESTED_LOOP", lc * rc, []⟩) ∧
    (∀ (mlog2 : ℚ → ℚ) (stats : Stats) (ast : SelectAst),
        optimizeJoinOrder mlog2 stats ast = ast ∨
        ∃ p, (optimizeJoinOrder mlog2 stats ast).«from» = [p] ∧
          dpPlanOK p = true) := by
  refine ⟨fun _ => rfl, estimateJoinCost_nil, ?_⟩
  intro mlog2 stats ast
  by_cases hlen : ast.«from».length ≤ 1
  · left
    rw [optimizeJoinOrder, if_pos hlen]
  · rw [optimizeJoinOrder, if_neg hlen]
    have hok : DPOK (runDP mlog2 stats (extractJoinPredicates ast)
        (extractTables ast.«from»)) := by
      refine runDP_ok mlog2 stats _ ?_
      intro t ht
      rcases extractTables_table _ t ht with ⟨n, a, rfl⟩
      rfl
    rcases hfull : runDP mlog2 stats (extractJoinPredicates ast)
        (extractTables ast.«from») ((1 <<< (extractTables ast.«from»).length) - 1)
      with _ | result
    · left
      simp only [hfull]
    · right
      refine ⟨result.plan, ?_, hok _ result hfull⟩
      simp only [hfull]

/-! ## Claim C7: constant folding -/

/-- The four operators `evaluateBinaryOp` folds. -/
def foldableOp (op : String) : Bool :=
  op == "+" || op == "-" || op == "*" || op == "/"

mutual
/-- No foldable redex: the expression contains no BINARY_OP node with a
foldable operator and two LITERAL operands. -/
def noRedexE : Expr → Bool
  | .binaryOp op l r =>
    !(foldableOp op && (l.isLit && r.isLit)) && noRedexE l && noRedexE r
  | .func _ args => noRedexEL args
  | .column _ => true
  | .literal _ _ => true
  | .wildcard => true

/-- `noRedexE` over an argument list. -/
def noRedexEL : ExprList → Bool
  | .nil => true
  | .cons e t => noRedexE e && noRedexEL t
end

/-- A Boolean check on an optional value (true when absent). -/
def optAllB {α : Type} (f : α → Bool) : Option α → Bool
  | none => true
  | some x => f x

/-- No foldable redex in a FROM node (join conditions included). -/
def noRedexFrom : FromNode → Bool
  | .table _ _ => true
  | .join _ l r cond _ _ =>
    noRedexFrom l && noRedexFrom r && optAllB noRedexE cond

/-- No foldable redex anywhere in a SELECT AST. -/
def noRedexSelect (ast : SelectAst) : Bool :=
  ast.columns.all noRedexE && ast.«from».all noRedexFrom &&
    optAllB noRedexE ast.«where» &&
    optAllB (fun es => es.all noRedexE) ast.groupBy &&
    optAllB noRedexE ast.having &&
    optAllB (fun items => items.all (fun oi => noRedexE oi.expression)) ast.orderBy

/-- `evaluateBinaryOp` yields a LITERAL exactly for the operators
`+ - * /`. -/
lemma evalBinOp_isLit (op : String) (l r : Expr) :
    (evaluateBinaryOp op l r).isLit = foldableOp op := by
  unfold evaluateBinaryOp foldableOp
  split_ifs with h1 h2 h3 h4 <;>
    simp_all [Expr.isLit]

/-- `evaluateBinaryOp` output has no foldable redex when its inputs have
none: a foldable operator yields a literal, any other operator rebuilds a
BINARY_OP whose operator is not foldable. -/
lemma noRedexE_evalBinOp (op : String) (l r : Expr)
    (hl : noRedexE l = true) (hr : noRedexE r = true) :
    noRedexE (evaluateBinaryOp op l r) = true := by
  unfold evaluateBinaryOp
  split_ifs with h1 h2 h3 h4
  · rw [noRedexE]
  · rw [noRedexE]
  · rw [noRedexE]
  · rw [noRedexE]
  · rw [noRedexE]
    have hop : foldableOp op = false := by
      simp [foldableOp, h1, h2, h3, h4]
    rw [hop]
    simp [hl, hr]

mutual
/-- After `foldExpr` no foldable redex remains. -/
theorem foldExpr_noRedex : ∀ e : Expr, noRedexE (foldExpr e) = true
  | .binaryOp op l r => by
    rw [foldExpr]
    have hl := foldExpr_noRedex l
    have hr := foldExpr_noRedex r
    by_cases hlit : ((foldExpr l).isLit && (foldExpr r).isLit) = true
    · rw [if_pos hlit]
      exact noRedexE_evalBinOp op _ _ hl hr
    · rw [if_neg hlit]
      rw [noRedexE]
      have hlit' : ((foldExpr l).isLit && (foldExpr r).isLit) = false :=
        Bool.not_eq_true _ ▸ Bool.of_not_eq_true hlit
      rw [hlit']
      simp [hl, hr]
  | .func name args => by
    rw [foldExpr, noRedexE]
    exact foldExprList_noRedex args
  | .column parts => by rw [foldExpr, noRedexE]
  | .literal dt v => by rw [foldExpr, noRedexE]
  | .wildcard => by rw [foldExpr, noRedexE]

/-- After `foldExprList` no foldable redex remains. -/
theorem foldExprList_noRedex : ∀ es : ExprList, noRedexEL (foldExprList es) = true
  | .nil => by rw [foldExprList, noRedexEL]
  | .cons e t => by
    rw [foldExprList, noRedexEL]
    rw [foldExpr_noRedex e, foldExprList_noRedex t]
    rfl
end

/-- After `foldFrom` no foldable redex remains. -/
lemma foldFrom_noRedex : ∀ f : FromNode, noRedexFrom (foldFrom f) = true
  | .table n a => by rw [foldFrom, noRedexFrom]
  | .join jt l r cond m p => by
    rw [foldFrom, noRedexFrom]
    rw [foldFrom_noRedex l, foldFrom_noRedex r]
    rcases cond with _ | c
    · rfl
    · simp [optAllB, foldExpr_noRedex c]

/-- Mapping `foldExpr` over a list leaves no foldable redex. -/
lemma foldList_noRedex (es : List Expr) :
    (es.map foldExpr).all noRedexE = true := by
  rw [List.all_eq_true]
  intro e he
  rcases List.mem_map.mp he with ⟨x, _, rfl⟩
  exact foldExpr_noRedex x

/-- C7: constant folding replaces every BINARY_OP with two LITERAL
operands and operator `+ - * /` — and only those — by a single computed
LITERAL, anywhere in the tree: after `foldConstants` no foldable redex
remains anywhere in the AST; `evaluateBinaryOp` computes the JS value for
each of the four operators and yields a literal exactly for them;
`2 + 3` folds to the literal 5; and `1 / 0` folds to a literal holding
Infinity, which `rewriteQuery` preserves in its output. -/
theorem C7_thm :
    (∀ ast : SelectAst, noRedexSelect (foldConstants ast) = true) ∧
    (∀ l r : Expr, evaluateBinaryOp "+" l r =
      .literal none (valueAdd (exprValueJS l) (exprValueJS r))) ∧
    (∀ l r : Expr, evaluateBinaryOp "-" l r =
      .literal none (valueSub (exprValueJS l) (exprValueJS r))) ∧
    (∀ l r : Expr, evaluateBinaryOp "*" l r =
      .literal none (valueMul (exprValueJS l) (exprValueJS r))) ∧
    (∀ l r : Expr, evaluateBinaryOp "/" l r =
      .literal none (valueDiv (exprValueJS l) (exprValueJS r))) ∧
    (∀ (op : String) (l r : Expr), (evaluateBinaryOp op l r).isLit = foldableOp op) ∧
    foldExpr (.binaryOp "+" (.literal (some .NUMBER) (.num (.rat 2)))
        (.literal (some .NUMBER) (.num (.rat 3)))) =
      .literal none (.num (.rat 5)) ∧
    (rewriteQuery
        { columns := [.wildcard], «from» := [.table "t" none]
          «where» := some (.binaryOp "/" (.literal (some .NUMBER) (.num (.rat 1)))
            (.literal (some .NUMBER) (.num (.rat 0))))
          groupBy := none, having := none, orderBy := none,
          limit := none }).«where» =
      some (.literal none (.num .posInf)) := by
  refine ⟨?_, fun l r => rfl, fun l r => rfl, fun l r => rfl, fun l r => rfl,
    evalBinOp_isLit, by with_unfolding_all decide, by with_unfolding_all decide⟩
  intro ast
  rw [foldConstants, noRedexSelect]
  simp only
  rw [foldList_noRedex]
  have hfrom : (ast.«from».map foldFrom).all noRedexFrom = true := by
    rw [List.all_eq_true]
    intro f hf
    rcases List.mem_map.mp hf with ⟨x, _, rfl⟩
    exact foldFrom_noRedex x
  rw [hfrom]
  have hw : optAllB noRedexE (ast.«where».map foldExpr) = true := by
    rcases ast.«where» with _ | w
    · rfl
    · exact foldExpr_noRedex w
  rw [hw]
  have hg : optAllB (fun es => es.all noRedexE)
      (ast.groupBy.map (fun es => es.map foldExpr)) = true := by
    rcases ast.groupBy with _ | es
    · rfl
    · exact foldList_noRedex es
  rw [hg]
  have hh : optAllB noRedexE (ast.having.map foldExpr) = true := by
    rcases ast.having with _ | h
    · rfl
    · exact foldExpr_noRedex h
  rw [hh]
  have ho : optAllB (fun items => items.all (fun oi => noRedexE oi.expression))
      (ast.orderBy.map (fun items => items.map foldOrderItem)) = true := by
    rcases ast.orderBy with _ | items
    · rfl
    · show (items.map foldOrderItem).all (fun oi => noRedexE oi.expression) = true
      rw [List.all_eq_true]
      intro oi hoi
      rcases List.mem_map.mp hoi with ⟨x, _, rfl⟩
      exact foldExpr_noRedex x.expression
  rw [ho]
  rfl

mutual
/-- `foldExpr` is idempotent: the source's second generic-property pass
over the operands of an already-folded BINARY_OP changes nothing. -/
theorem foldExpr_idem : ∀ e : Expr, foldExpr (foldExpr e) = foldExpr e
  | .binaryOp op l r => by
    have hl := foldExpr_idem l
    have hr := foldExpr_idem r
    by_cases hlit : ((foldExpr l).isLit && (foldExpr r).isLit) = true
    · have h1 : foldExpr (.binaryOp op l r) =
          evaluateBinaryOp op (foldExpr l) (foldExpr r) := by
        rw [foldExpr, if_pos hlit]
      rw [h1]
      unfold evaluateBinaryOp
      split_ifs with h2 h3 h4 h5
      · rw [foldExpr]
      · rw [foldExpr]
      · rw [foldExpr]
      · rw [foldExpr]
      · rw [foldExpr, hl, hr, if_pos hlit]
        unfold evaluateBinaryOp
        rw [if_neg h2, if_neg h3, if_neg h4, if_neg h5]
    · have h1 : foldExpr (.binaryOp op l r) =
          .binaryOp op (foldExpr l) (foldExpr r) := by
        rw [foldExpr, if_neg hlit]
      rw [h1, foldExpr, hl, hr, if_neg hlit]
  | .func name args => by
    rw [foldExpr, foldExpr, foldExprList_idem args]
  | .column parts => by rw [foldExpr, foldExpr]
  | .literal dt v => by rw [foldExpr, foldExpr]
  | .wildcard => by rw [foldExpr, foldExpr]

/-- `foldExprList` is idempotent. -/
theorem foldExprList_idem : ∀ es : ExprList,
    foldExprList (foldExprList es) = foldExprList es
  | .nil => by simp only [foldExprList]
  | .cons e t => by
    rw [foldExprList, foldExprList, foldExpr_idem e, foldExprList_idem t]
end

/-! ## Claim C10: literal dataType discipline -/

mutual
/-- Every LITERAL node in the expression carries a `dataType`. -/
def litsTypedE : Expr → Bool
  | .binaryOp _ l r => litsTypedE l && litsTypedE r
  | .column _ => true
  | .literal dt _ => dt.isSome
  | .func _ args => litsTypedEL args
  | .wildcard => true

/-- `litsTypedE` over an argument list. -/
def litsTypedEL : ExprList → Bool
  | .nil => true
  | .cons e t => litsTypedE e && litsTypedEL t
end

/-- Every LITERAL node in the FROM node carries a `dataType`. -/
def litsTypedFrom : FromNode → Bool
  | .table _ _ => true
  | .join _ l r cond _ _ =>
    litsTypedFrom l && litsTypedFrom r && optAllB litsTypedE cond

/-- Every LITERAL node in the SELECT AST carries a `dataType`. -/
def litsTypedSelect (ast : SelectAst) : Bool :=
  ast.columns.all litsTypedE && ast.«from».all litsTypedFrom &&
    optAllB litsTypedE ast.«where» &&
    optAllB (fun es => es.all litsTypedE) ast.groupBy &&
    optAllB litsTypedE ast.having &&
    optAllB (fun items => items.all (fun oi => litsTypedE oi.expression))
      ast.orderBy

/-- Inversion of a successful `Except` bind. -/
lemma bindE {ε α β : Type} {x : Except ε α} {f : α → Except ε β} {b : β}
    (h : (x >>= f) = .ok b) : ∃ a, x = .ok a ∧ f a = .ok b := by
  cases x with
  | error e =>
    exact absurd h (by simp [Bind.bind, Except.bind])
  | ok a =>
    refine ⟨a, rfl, ?_⟩
    simpa [Bind.bind, Except.bind] using h

/-- Whatever `parseTableRef` returns is a TABLE node, hence trivially
literal-typed. -/
lemma parseTableRef_typed (tokens : List Token) (pos : Nat) (f : FromNode)
    (p : Nat) (h : parseTableRef tokens pos = .ok (f, p)) :
    litsTypedFrom f = true := by
  rw [parseTableRef] at h
  obtain ⟨⟨name, p1⟩, h1, h⟩ := bindE h
  dsimp only at h
  rcases hm : matchTok tokens p1 "AS" with ⟨mas, p2⟩
  rw [hm] at h
  dsimp only at h
  by_cases hmas : mas = true
  · rw [if_pos hmas] at h
    obtain ⟨⟨al, p3⟩, h2, h⟩ := bindE h
    dsimp only at h
    simp only [pure, Except.pure, Except.ok.injEq, Prod.mk.injEq] at h
    rw [← h.1]
    rfl
  · rw [if_neg hmas] at h
    rcases hct : curTok tokens p1 with _ | t
    · rw [hct] at h
      exact absurd h (by simp)
    · rw [hct] at h
      dsimp only at h
      by_cases hty : t.type = TokType.IDENTIFIER
      · rw [if_pos hty] at h
        obtain ⟨⟨al, p3⟩, h2, h⟩ := bindE h
        dsimp only at h
        simp only [pure, Except.pure, Except.ok.injEq, Prod.mk.injEq] at h
        rw [← h.1]
        rfl
      · rw [if_neg hty] at h
        simp only [pure, Except.pure, Except.ok.injEq, Prod.mk.injEq] at h
        rw [← h.1]
        rfl

/-- The literal-typing invariant over one whole family of reader
routines: every successfully produced node has a `dataType` on each of
its LITERAL nodes (the accumulating routines assume it of their
accumulator argument). -/
structure FnsTyped (P : ParserFns) : Prop where
  selectStmt : ∀ tokens pos ast p, P.selectStmt tokens pos = .ok (ast, p) →
    litsTypedSelect ast = true
  selectList : ∀ tokens pos es p, P.selectList tokens pos = .ok (es, p) →
    es.all litsTypedE = true
  fromClause : ∀ tokens pos fs p, P.fromClause tokens pos = .ok (fs, p) →
    fs.all litsTypedFrom = true
  joinRun : ∀ tokens pos left f p, litsTypedFrom left = true →
    P.joinRun tokens pos left = .ok (f, p) → litsTypedFrom f = true
  whereClause : ∀ tokens pos e p, P.whereClause tokens pos = .ok (e, p) →
    litsTypedE e = true
  expression : ∀ tokens pos e p, P.expression tokens pos = .ok (e, p) →
    litsTypedE e = true
  orExpr : ∀ tokens pos e p, P.orExpr tokens pos = .ok (e, p) →
    litsTypedE e = true
  orRest : ∀ tokens pos left e p, litsTypedE left = true →
    P.orRest tokens pos left = .ok (e, p) → litsTypedE e = true
  andExpr : ∀ tokens pos e p, P.andExpr tokens pos = .ok (e, p) →
    litsTypedE e = true
  andRest : ∀ tokens pos left e p, litsTypedE left = true →
    P.andRest tokens pos left = .ok (e, p) → litsTypedE e = true
  comparison : ∀ tokens pos e p, P.comparison tokens pos = .ok (e, p) →
    litsTypedE e = true
  primary : ∀ tokens pos e p, P.primary tokens pos = .ok (e, p) →
    litsTypedE e = true
  argList : ∀ tokens pos es p, P.argList tokens pos = .ok (es, p) →
    litsTypedEL es = true
  groupByClause : ∀ tokens pos es p, P.groupByClause tokens pos = .ok (es, p) →
    es.all litsTypedE = true
  havingClause : ∀ tokens pos e p, P.havingClause tokens pos = .ok (e, p) →
    litsTypedE e = true
  orderByClause : ∀ tokens pos items p,
    P.orderByClause tokens pos = .ok (items, p) →
    items.all (fun oi => litsTypedE oi.expression) = true

/-- The depth-0 routines satisfy the invariant vacuously. -/
lemma fnsTyped_noFuel : FnsTyped noFuelFns := by
  constructor <;> intro tokens pos <;> intros <;>
    simp_all [noFuelFns]

set_option maxHeartbeats 3200000 in
/-- One reader layer preserves the literal-typing invariant. -/
lemma fnsTyped_step (P : ParserFns) (hP : FnsTyped P) : FnsTyped (stepFns P) := by
  constructor
  case selectStmt =>
    intro tokens pos ast p h
    simp only [stepFns] at h
    obtain ⟨p1, h1, h⟩ := bindE h
    obtain ⟨⟨columns, p2⟩, h2, h⟩ := bindE h
    obtain ⟨p3, h3, h⟩ := bindE h
    obtain ⟨⟨fromList, p4⟩, h4, h⟩ := bindE h
    have hcols : columns.all litsTypedE = true := hP.selectList _ _ _ _ h2
    have hfroms : fromList.all litsTypedFrom = true := hP.fromClause _ _ _ _ h4
    dsimp only at h
    split at h
    all_goals try simp only [pure_bind] at h
    all_goals try (obtain ⟨⟨w1, q1⟩, hw1, h⟩ := bindE h)
    all_goals try dsimp only at h
    all_goals split at h
    all_goals try simp only [pure_bind] at h
    all_goals try (obtain ⟨qg, hqg, h⟩ := bindE h)
    all_goals try (obtain ⟨⟨g1, q2⟩, hg1, h⟩ := bindE h)
    all_goals try simp only [pure_bind] at h
    all_goals try dsimp only at h
    all_goals split at h
    all_goals try simp only [pure_bind] at h
    all_goals try (obtain ⟨⟨v1, q3⟩, hv1, h⟩ := bindE h)
    all_goals try dsimp only at h
    all_goals split at h
    all_goals try simp only [pure_bind] at h
    all_goals try (obtain ⟨qo, hqo, h⟩ := bindE h)
    all_goals try (obtain ⟨⟨o1, q4⟩, ho1, h⟩ := bindE h)
    all_goals try simp only [pure_bind] at h
    all_goals try dsimp only at h
    all_goals split at h
    all_goals try simp only [pure_bind] at h
    all_goals try (obtain ⟨⟨l1, q5⟩, hl1, h⟩ := bindE h)
    all_goals try dsimp only at h
    all_goals try (have hw1t : litsTypedE w1 = true := hP.whereClause _ _ _ _ hw1)
    all_goals try (have hg1t : g1.all litsTypedE = true := hP.groupByClause _ _ _ _ hg1)
    all_goals try (have hv1t : litsTypedE v1 = true := hP.havingClause _ _ _ _ hv1)
    all_goals try (have ho1t : o1.all (fun oi => litsTypedE oi.expression) = true :=
      hP.orderByClause _ _ _ _ ho1)
    all_goals simp only [pure, Except.pure, Except.ok.injEq, Prod.mk.injEq] at h
    all_goals rw [← h.1]
    all_goals simp only [litsTypedSelect, optAllB]
    all_goals simp only [hcols, hfroms]
    all_goals try simp only [hw1t]
    all_goals try simp only [hg1t]
    all_goals try simp only [hv1t]
    all_goals try simp only [ho1t]
    all_goals rfl
  case selectList =>
    intro tokens pos es p h
    simp only [stepFns] at h
    try dsimp only at h
    split at h
    all_goals try simp only [pure_bind] at h
    all_goals try (obtain ⟨⟨item, p2⟩, hitem, h⟩ := bindE h)
    all_goals try dsimp only at h
    all_goals split at h
    all_goals try (obtain ⟨⟨rest, p4⟩, hrest, h⟩ := bindE h)
    all_goals simp only [pure, Except.pure, Except.ok.injEq, Prod.mk.injEq] at h
    all_goals rw [← h.1]
    all_goals try (have hit : litsTypedE item = true := hP.expression _ _ _ _ hitem)
    all_goals try (have hrt : rest.all litsTypedE = true := hP.selectList _ _ _ _ hrest)
    all_goals simp only [List.all_cons, List.all_nil, litsTypedE]
    all_goals try simp only [hit]
    all_goals try simp only [hrt]
    all_goals rfl
  case fromClause =>
    intro tokens pos fs p h
    simp only [stepFns] at h
    obtain ⟨⟨t, p1⟩, ht, h⟩ := bindE h
    obtain ⟨⟨grp, p2⟩, hgrp, h⟩ := bindE h
    have hgty : litsTypedFrom grp = true :=
      hP.joinRun tokens p1 t grp p2 (parseTableRef_typed tokens pos t p1 ht) hgrp
    rcases hmc : matchTok tokens p2 "," with ⟨mc, p3⟩
    rw [hmc] at h
    split at h
    · obtain ⟨⟨rest, p4⟩, hrest, h⟩ := bindE h
      simp only [pure, Except.pure, Except.ok.injEq, Prod.mk.injEq] at h
      rw [← h.1]
      rw [List.all_cons, hgty, hP.fromClause tokens p3 rest p4 hrest]
      rfl
    · simp only [pure, Except.pure, Except.ok.injEq, Prod.mk.injEq] at h
      rw [← h.1]
      rw [List.all_cons, hgty]
      rfl
  case joinRun =>
    intro tokens pos left f p hleft h
    simp only [stepFns] at h
    rcases hct : curTok tokens pos with _ | t
    · rw [hct] at h
      dsimp only at h
      simp only [Except.ok.injEq, Prod.mk.injEq] at h
      rw [← h.1]
      exact hleft
    · rw [hct] at h
      dsimp only at h
      split at h
      · rcases hmj : matchTok tokens (pos + 1) "JOIN" with ⟨mj, p2⟩
        rw [hmj] at h
        dsimp only at h
        obtain ⟨⟨right, p3⟩, hr, h⟩ := bindE h
        dsimp only at h
        rcases hmon : matchTok tokens p3 "ON" with ⟨mon, p4⟩
        rw [hmon] at h
        dsimp only at h
        split at h
        · simp only [pure_bind] at h
          obtain ⟨⟨ce, q1⟩, hc, h⟩ := bindE h
          dsimp only at h
          refine hP.joinRun _ _ _ _ _ ?_ h
          simp only [litsTypedFrom, optAllB, hleft,
            parseTableRef_typed _ _ _ _ hr, hP.expression _ _ _ _ hc]
          rfl
        · simp only [pure_bind] at h
          refine hP.joinRun _ _ _ _ _ ?_ h
          simp only [litsTypedFrom, optAllB, hleft,
            parseTableRef_typed _ _ _ _ hr]
          rfl
      · simp only [Except.ok.injEq, Prod.mk.injEq] at h
        rw [← h.1]
        exact hleft
  case whereClause =>
    intro tokens pos e p h
    simp only [stepFns] at h
    exact hP.expression tokens pos e p h
  case expression =>
    intro tokens pos e p h
    simp only [stepFns] at h
    exact hP.orExpr tokens pos e p h
  case orExpr =>
    intro tokens pos e p h
    simp only [stepFns] at h
    obtain ⟨⟨left, p1⟩, h1, h⟩ := bindE h
    exact hP.orRest tokens p1 left e p (hP.andExpr tokens pos left p1 h1) h
  case orRest =>
    intro tokens pos left e p hleft h
    simp only [stepFns] at h
    rcases hm : matchTok tokens pos "OR" with ⟨m, p1⟩
    rw [hm] at h
    split at h
    · obtain ⟨⟨right, p2⟩, h1, h⟩ := bindE h
      refine hP.orRest tokens p2 _ e p ?_ h
      rw [litsTypedE, hleft, hP.andExpr tokens p1 right p2 h1]
      rfl
    · simp only [pure, Except.pure, Except.ok.injEq, Prod.mk.injEq] at h
      rw [← h.1]
      exact hleft
  case andExpr =>
    intro tokens pos e p h
    simp only [stepFns] at h
    obtain ⟨⟨left, p1⟩, h1, h⟩ := bindE h
    exact hP.andRest tokens p1 left e p (hP.comparison tokens pos left p1 h1) h
  case andRest =>
    intro tokens pos left e p hleft h
    simp only [stepFns] at h
    rcases hm : matchTok tokens pos "AND" with ⟨m, p1⟩
    rw [hm] at h
    split at h
    · obtain ⟨⟨right, p2⟩, h1, h⟩ := bindE h
      refine hP.andRest tokens p2 _ e p ?_ h
      rw [litsTypedE, hleft, hP.comparison tokens p1 right p2 h1]
      rfl
    · simp only [pure, Except.pure, Except.ok.injEq, Prod.mk.injEq] at h
      rw [← h.1]
      exact hleft
  case comparison =>
    intro tokens pos e p h
    simp only [stepFns] at h
    obtain ⟨⟨left, p1⟩, h1, h⟩ := bindE h
    rcases hct : curTok tokens p1 with _ | t
    · rw [hct] at h
      try dsimp only at h
      exact absurd h (by simp)
    · rw [hct] at h
      try dsimp only at h
      split at h
      · obtain ⟨⟨right, p2⟩, h2, h⟩ := bindE h
        simp only [pure, Except.pure, Except.ok.injEq, Prod.mk.injEq] at h
        rw [← h.1]
        rw [litsTypedE, hP.primary tokens pos left p1 h1,
          hP.primary tokens (p1 + 1) right p2 h2]
        rfl
      · simp only [pure, Except.pure, Except.ok.injEq, Prod.mk.injEq] at h
        rw [← h.1]
        exact hP.primary tokens pos left p1 h1
  case primary =>
    intro tokens pos e p h
    simp only [stepFns] at h
    rcases hmp : matchTok tokens pos "(" with ⟨mp, p1⟩
    rw [hmp] at h
    dsimp only at h
    split at h
    · obtain ⟨⟨e', p2⟩, he, h⟩ := bindE h
      obtain ⟨p3, h3, h⟩ := bindE h
      simp only [pure, Except.pure, Except.ok.injEq, Prod.mk.injEq] at h
      rw [← h.1]
      exact hP.expression tokens p1 e' p2 he
    · rcases hct : curTok tokens pos with _ | t
      · rw [hct] at h
        try dsimp only at h
        exact absurd h (by simp)
      · rw [hct] at h
        dsimp only at h
        split at h
        · split at h
          · obtain ⟨⟨fn, p1'⟩, hfn, h⟩ := bindE h
            obtain ⟨p2', h2', h⟩ := bindE h
            dsimp only at h
            rcases hmc : matchTok tokens p2' ")" with ⟨mclose, p3'⟩
            rw [hmc] at h
            dsimp only at h
            split at h
            · simp only [pure, Except.pure, Except.ok.injEq, Prod.mk.injEq] at h
              rw [← h.1]
              simp only [litsTypedE, litsTypedEL]
            · obtain ⟨⟨args, p4'⟩, hargs, h⟩ := bindE h
              obtain ⟨p5', h5', h⟩ := bindE h
              simp only [pure, Except.pure, Except.ok.injEq, Prod.mk.injEq] at h
              rw [← h.1]
              simp only [litsTypedE]
              exact hP.argList tokens p3' args p4' hargs
          · obtain ⟨⟨first, p1'⟩, hf, h⟩ := bindE h
            obtain ⟨⟨parts, p2'⟩, hp', h⟩ := bindE h
            simp only [pure, Except.pure, Except.ok.injEq, Prod.mk.injEq] at h
            rw [← h.1]
            simp only [litsTypedE]
        · split at h
          · simp only [pure, Except.pure, Except.ok.injEq, Prod.mk.injEq] at h
            rw [← h.1]
            simp only [litsTypedE]
            rfl
          · split at h
            · simp only [pure, Except.pure, Except.ok.injEq, Prod.mk.injEq] at h
              rw [← h.1]
              simp only [litsTypedE]
              rfl
            · exact absurd h (by simp)
  case argList =>
    intro tokens pos es p h
    simp only [stepFns] at h
    obtain ⟨⟨e', p1⟩, he, h⟩ := bindE h
    have hety := hP.expression tokens pos e' p1 he
    rcases hmc : matchTok tokens p1 "," with ⟨mc, p2⟩
    rw [hmc] at h
    split at h
    · obtain ⟨⟨rest, p3⟩, hrest, h⟩ := bindE h
      simp only [pure, Except.pure, Except.ok.injEq, Prod.mk.injEq] at h
      rw [← h.1]
      rw [litsTypedEL, hety, hP.argList tokens p2 rest p3 hrest]
      rfl
    · simp only [pure, Except.pure, Except.ok.injEq, Prod.mk.injEq] at h
      rw [← h.1]
      rw [litsTypedEL, hety, litsTypedEL]
      rfl
  case groupByClause =>
    intro tokens pos es p h
    simp only [stepFns] at h
    obtain ⟨⟨e', p1⟩, he, h⟩ := bindE h
    have hety := hP.expression tokens pos e' p1 he
    rcases hmc : matchTok tokens p1 "," with ⟨mc, p2⟩
    rw [hmc] at h
    split at h
    · obtain ⟨⟨rest, p3⟩, hrest, h⟩ := bindE h
      simp only [pure, Except.pure, Except.ok.injEq, Prod.mk.injEq] at h
      rw [← h.1]
      rw [List.all_cons, hety, hP.groupByClause tokens p2 rest p3 hrest]
      rfl
    · simp only [pure, Except.pure, Except.ok.injEq, Prod.mk.injEq] at h
      rw [← h.1]
      rw [List.all_cons, hety]
      rfl
  case havingClause =>
    intro tokens pos e p h
    simp only [stepFns] at h
    exact hP.expression tokens pos e p h
  case orderByClause =>
    intro tokens pos items p h
    simp only [stepFns] at h
    obtain ⟨⟨e', p1⟩, he, h⟩ := bindE h
    have hety := hP.expression tokens pos e' p1 he
    dsimp only at h
    rcases hma : matchTok tokens p1 "ASC" with ⟨ma, p2⟩
    rw [hma] at h
    dsimp only at h
    by_cases hma2 : ma = true
    · rw [if_pos hma2] at h
      dsimp only at h
      rcases hmc : matchTok tokens p2 "," with ⟨mca, p4a⟩
      rw [hmc] at h
      dsimp only at h
      split at h
      · obtain ⟨⟨rest, p5⟩, hrest, h⟩ := bindE h
        simp only [pure, Except.pure, Except.ok.injEq, Prod.mk.injEq] at h
        rw [← h.1]
        simp [hety, hP.orderByClause _ _ _ _ hrest]
      · simp only [pure, Except.pure, Except.ok.injEq, Prod.mk.injEq] at h
        rw [← h.1]
        simp [hety]
    · rw [if_neg hma2] at h
      rcases hmd : matchTok tokens p1 "DESC" with ⟨md, p2d⟩
      rw [hmd] at h
      dsimp only at h
      by_cases hmd2 : md = true
      · rw [if_pos hmd2] at h
        dsimp only at h
        rcases hmc : matchTok tokens p2d "," with ⟨mcb, p4b⟩
        rw [hmc] at h
        dsimp only at h
        split at h
        · obtain ⟨⟨rest, p5⟩, hrest, h⟩ := bindE h
          simp only [pure, Except.pure, Except.ok.injEq, Prod.mk.injEq] at h
          rw [← h.1]
          simp [hety, hP.orderByClause _ _ _ _ hrest]
        · simp only [pure, Except.pure, Except.ok.injEq, Prod.mk.injEq] at h
          rw [← h.1]
          simp [hety]
      · rw [if_neg hmd2] at h
        dsimp only at h
        rcases hmc : matchTok tokens p1 "," with ⟨mcc, p4c⟩
        rw [hmc] at h
        dsimp only at h
        split at h
        · obtain ⟨⟨rest, p5⟩, hrest, h⟩ := bindE h
          simp only [pure, Except.pure, Except.ok.injEq, Prod.mk.injEq] at h
          rw [← h.1]
          simp [hety, hP.orderByClause _ _ _ _ hrest]
        · simp only [pure, Except.pure, Except.ok.injEq, Prod.mk.injEq] at h
          rw [← h.1]
          simp [hety]

/-- Every depth of the reader satisfies the literal-typing invariant. -/
lemma fnsTyped_all : ∀ fuel, FnsTyped (parserFns fuel) := by
  intro fuel
  induction fuel with
  | zero => exact fnsTyped_noFuel
  | succ k ih => exact fnsTyped_step _ ih

/-! ## The shape of reader errors

Every error any reader routine can produce is the TypeError of an
exhausted token stream, the model's fuel exhaustion, or a parse error
whose message is one of two fixed templates built from an expectation
word and rendered token values — never from a token's `position`
field. -/

/-- The "got" half of an expectation message: the rendered value of some
token of the stream, or the rendering `"undefined"` of an exhausted
stream. -/
def gotFromStream (tokens : List Token) (g : String) : Prop :=
  g = "undefined" ∨ ∃ t, t ∈ tokens ∧ g = showTValue t.value

/-- The fixed vocabulary of expectation subjects in reader error
messages: the strings the reader `expect`s plus `identifier` and
`number`. -/
def expectedWords : List String :=
  ["SELECT", "FROM", "BY", "(", ")", "identifier", "number"]

/-- Shape of a reader error: a parse error carries one of the two fixed
message templates over token values (no token position); the TypeError
and fuel exhaustion carry nothing. -/
def errShape (tokens : List Token) : PErr → Prop
  | .parseError msg =>
      (∃ w g, w ∈ expectedWords ∧ gotFromStream tokens g ∧
        msg = "Expected " ++ w ++ ", got " ++ g) ∨
      (∃ t, t ∈ tokens ∧ msg = "Unexpected token: " ++ showTValue t.value)
  | .typeError => True
  | .outOfFuel => True

/-- A token read at any position belongs to the stream. -/
lemma mem_of_curTok {tokens : List Token} {pos : Nat} {t : Token}
    (h : curTok tokens pos = some t) : t ∈ tokens := by
  rw [curTok] at h
  exact List.get?_mem h

/-- The current token's rendering is always a legitimate "got" half. -/
lemma gotFromStream_cur (tokens : List Token) (pos : Nat) :
    gotFromStream tokens (showOptTokValue (curTok tokens pos)) := by
  rcases hct : curTok tokens pos with _ | t
  · exact Or.inl rfl
  · exact Or.inr ⟨t, mem_of_curTok hct, rfl⟩

/-- Inversion of a failing `Except` bind: the error comes from the first
action or from the continuation of its result. -/
lemma bindErr {ε α β : Type} {x : Except ε α} {f : α → Except ε β} {e : ε}
    (h : (x >>= f) = .error e) :
    x = .error e ∨ ∃ a, x = .ok a ∧ f a = .error e := by
  cases x with
  | error eo =>
    left
    simpa [Bind.bind, Except.bind] using h
  | ok a =>
    right
    refine ⟨a, rfl, ?_⟩
    simpa [Bind.bind, Except.bind] using h

/-- A failing `expect` raises the expectation template over the expected
word and the current token's rendering. -/
lemma expectTok_err {tokens : List Token} {pos : Nat} {expected : String}
    {e : PErr} (h : expectTok tokens pos expected = .error e)
    (hw : expected ∈ expectedWords) : errShape tokens e := by
  rw [expectTok] at h
  rcases hm : matchTok tokens pos expected with ⟨mk, p⟩
  rw [hm] at h
  dsimp only at h
  split at h
  · cases h
  · injection h with h
    subst h
    exact Or.inl ⟨expected, showOptTokValue (curTok tokens pos), hw,
      gotFromStream_cur tokens pos, rfl⟩

/-- A failing `expectIdentifier` is the exhausted-stream TypeError or
the expectation template over `identifier`. -/
lemma expectIdent_err {tokens : List Token} {pos : Nat} {e : PErr}
    (h : expectIdent tokens pos = .error e) : errShape tokens e := by
  rw [expectIdent] at h
  rcases hct : curTok tokens pos with _ | t
  · rw [hct] at h
    dsimp only at h
    injection h with h
    subst h
    exact trivial
  · rw [hct] at h
    dsimp only at h
    split at h
    · cases h
    · injection h with h
      subst h
      exact Or.inl ⟨"identifier", showTValue t.value, by decide,
        Or.inr ⟨t, mem_of_curTok hct, rfl⟩, rfl⟩

/-- A failing `parseNumber` is the exhausted-stream TypeError or the
expectation template over `number`. -/
lemma parseNumberTok_err {tokens : List Token} {pos : Nat} {e : PErr}
    (h : parseNumberTok tokens pos = .error e) : errShape tokens e := by
  rw [parseNumberTok] at h
  rcases hct : curTok tokens pos with _ | t
  · rw [hct] at h
    dsimp only at h
    injection h with h
    subst h
    exact trivial
  · rw [hct] at h
    dsimp only at h
    split at h
    · cases h
    · injection h with h
      subst h
      exact Or.inl ⟨"number", showTValue t.value, by decide,
        Or.inr ⟨t, mem_of_curTok hct, rfl⟩, rfl⟩

/-- A failing `parseTableReference` fails in shape: through
`expectIdentifier`, or with the bare-alias check's TypeError. -/
lemma parseTableRef_err {tokens : List Token} {pos : Nat} {e : PErr}
    (h : parseTableRef tokens pos = .error e) : errShape tokens e := by
  rw [parseTableRef] at h
  rcases bindErr h with h | ⟨⟨name, p1⟩, h1, h⟩
  · exact expectIdent_err h
  · dsimp only at h
    rcases hm : matchTok tokens p1 "AS" with ⟨mas, p2⟩
    rw [hm] at h
    dsimp only at h
    split at h
    · rcases bindErr h with h | ⟨⟨al, p3⟩, h2, h⟩
      · exact expectIdent_err h
      · dsimp only at h
        cases h
    · rcases hct : curTok tokens p1 with _ | t
      · rw [hct] at h
        dsimp only at h
        injection h with h
        subst h
        exact trivial
      · rw [hct] at h
        dsimp only at h
        split at h
        · rcases bindErr h with h | ⟨⟨al, p3⟩, h2, h⟩
          · exact expectIdent_err h
          · dsimp only at h
            cases h
        · cases h

/-- The error-shape invariant over one whole family of reader routines:
every error any routine produces is the exhausted-stream TypeError, the
model's fuel exhaustion, or a parse error whose message is one of the
two fixed templates over token values. -/
structure FnsErrShaped (P : ParserFns) : Prop where
  selectStmt : ∀ tokens pos e, P.selectStmt tokens pos = .error e →
    errShape tokens e
  selectList : ∀ tokens pos e, P.selectList tokens pos = .error e →
    errShape tokens e
  fromClause : ∀ tokens pos e, P.fromClause tokens pos = .error e →
    errShape tokens e
  joinRun : ∀ tokens pos left e, P.joinRun tokens pos left = .error e →
    errShape tokens e
  whereClause : ∀ tokens pos e, P.whereClause tokens pos = .error e →
    errShape tokens e
  expression : ∀ tokens pos e, P.expression tokens pos = .error e →
    errShape tokens e
  orExpr : ∀ tokens pos e, P.orExpr tokens pos = .error e →
    errShape tokens e
  orRest : ∀ tokens pos left e, P.orRest tokens pos left = .error e →
    errShape tokens e
  andExpr : ∀ tokens pos e, P.andExpr tokens pos = .error e →
    errShape tokens e
  andRest : ∀ tokens pos left e, P.andRest tokens pos left = .error e →
    errShape tokens e
  comparison : ∀ tokens pos e, P.comparison tokens pos = .error e →
    errShape tokens e
  primary : ∀ tokens pos e, P.primary tokens pos = .error e →
    errShape tokens e
  argList : ∀ tokens pos e, P.argList tokens pos = .error e →
    errShape tokens e
  partsRest : ∀ tokens pos acc e, P.partsRest tokens pos acc = .error e →
    errShape tokens e
  groupByClause : ∀ tokens pos e, P.groupByClause tokens pos = .error e →
    errShape tokens e
  havingClause : ∀ tokens pos e, P.havingClause tokens pos = .error e →
    errShape tokens e
  orderByClause : ∀ tokens pos e, P.orderByClause tokens pos = .error e →
    errShape tokens e

/-- The depth-0 routines satisfy the error-shape invariant: they fail
only with fuel exhaustion. -/
lemma fnsErr_noFuel : FnsErrShaped noFuelFns := by
  constructor <;> intro tokens pos <;> intros <;> rename_i hh <;>
    injection hh with hh <;> subst hh <;> exact trivial

set_option maxHeartbeats 3200000 in
/-- One reader layer preserves the error-shape invariant. -/
lemma fnsErr_step (P : ParserFns) (hP : FnsErrShaped P) :
    FnsErrShaped (stepFns P) := by
  constructor
  case selectStmt =>
    intro tokens pos e h
    simp only [stepFns] at h
    rcases bindErr h with h | ⟨p1, h1, h⟩
    · exact expectTok_err h (by decide)
    rcases bindErr h with h | ⟨⟨columns, p2⟩, h2, h⟩
    · exact hP.selectList _ _ _ h
    rcases bindErr h with h | ⟨p3, h3, h⟩
    · exact expectTok_err h (by decide)
    rcases bindErr h with h | ⟨⟨fromList, p4⟩, h4, h⟩
    · exact hP.fromClause _ _ _ h
    dsimp only at h
    split at h
    all_goals try simp only [pure_bind] at h
    all_goals try (rcases bindErr h with h | ⟨⟨w1, q1⟩, hw1, h⟩)
    all_goals try (exact hP.whereClause _ _ _ h)
    all_goals try dsimp only at h
    all_goals split at h
    all_goals try simp only [pure_bind] at h
    all_goals try (rcases bindErr h with h | ⟨qg, hqg, h⟩)
    all_goals try (exact expectTok_err h (by decide))
    all_goals try (rcases bindErr h with h | ⟨⟨g1, q2⟩, hg1, h⟩)
    all_goals try (exact hP.groupByClause _ _ _ h)
    all_goals try simp only [pure_bind] at h
    all_goals try dsimp only at h
    all_goals split at h
    all_goals try simp only [pure_bind] at h
    all_goals try (rcases bindErr h with h | ⟨⟨v1, q3⟩, hv1, h⟩)
    all_goals try (exact hP.havingClause _ _ _ h)
    all_goals try dsimp only at h
    all_goals split at h
    all_goals try simp only [pure_bind] at h
    all_goals try (rcases bindErr h with h | ⟨qo, hqo, h⟩)
    all_goals try (exact expectTok_err h (by decide))
    all_goals try (rcases bindErr h with h | ⟨⟨o1, q4⟩, ho1, h⟩)
    all_goals try (exact hP.orderByClause _ _ _ h)
    all_goals try simp only [pure_bind] at h
    all_goals try dsimp only at h
    all_goals split at h
    all_goals try simp only [pure_bind] at h
    all_goals try (rcases bindErr h with h | ⟨⟨l1, q5⟩, hl1, h⟩)
    all_goals try (exact parseNumberTok_err h)
    all_goals try dsimp only at h
    all_goals try simp only [pure, Except.pure] at h
    all_goals cases h
  case selectList =>
    intro tokens pos e h
    simp only [stepFns] at h
    try dsimp only at h
    split at h
    all_goals try simp only [pure_bind] at h
    all_goals try (rcases bindErr h with h | ⟨⟨item, p2⟩, hitem, h⟩)
    all_goals try (exact hP.expression _ _ _ h)
    all_goals try dsimp only at h
    all_goals split at h
    all_goals try (rcases bindErr h with h | ⟨⟨rest, p4⟩, hrest, h⟩)
    all_goals try (exact hP.selectList _ _ _ h)
    all_goals try simp only [pure, Except.pure] at h
    all_goals cases h
  case fromClause =>
    intro tokens pos e h
    simp only [stepFns] at h
    rcases bindErr h with h | ⟨⟨t, p1⟩, ht, h⟩
    · exact parseTableRef_err h
    rcases bindErr h with h | ⟨⟨grp, p2⟩, hgrp, h⟩
    · exact hP.joinRun _ _ _ _ h
    rcases hmc : matchTok tokens p2 "," with ⟨mc, p3⟩
    rw [hmc] at h
    split at h
    · rcases bindErr h with h | ⟨⟨rest, p4⟩, hrest, h⟩
      · exact hP.fromClause _ _ _ h
      · simp only [pure, Except.pure] at h
        cases h
    · simp only [pure, Except.pure] at h
      cases h
  case joinRun =>
    intro tokens pos left e h
    simp only [stepFns] at h
    rcases hct : curTok tokens pos with _ | t
    · rw [hct] at h
      dsimp only at h
      cases h
    · rw [hct] at h
      dsimp only at h
      split at h
      · rcases hmj : matchTok tokens (pos + 1) "JOIN" with ⟨mj, p2⟩
        rw [hmj] at h
        dsimp only at h
        rcases bindErr h with h | ⟨⟨right, p3⟩, hr, h⟩
        · exact parseTableRef_err h
        dsimp only at h
        rcases hmon : matchTok tokens p3 "ON" with ⟨mon, p4⟩
        rw [hmon] at h
        dsimp only at h
        split at h
        · simp only [pure_bind] at h
          rcases bindErr h with h | ⟨⟨ce, q1⟩, hc, h⟩
          · exact hP.expression _ _ _ h
          · dsimp only at h
            exact hP.joinRun _ _ _ _ h
        · simp only [pure_bind] at h
          exact hP.joinRun _ _ _ _ h
      · cases h
  case whereClause =>
    intro tokens pos e h
    simp only [stepFns] at h
    exact hP.expression _ _ _ h
  case expression =>
    intro tokens pos e h
    simp only [stepFns] at h
    exact hP.orExpr _ _ _ h
  case orExpr =>
    intro tokens pos e h
    simp only [stepFns] at h
    rcases bindErr h with h | ⟨⟨left, p1⟩, h1, h⟩
    · exact hP.andExpr _ _ _ h
    · exact hP.orRest _ _ _ _ h
  case orRest =>
    intro tokens pos left e h
    simp only [stepFns] at h
    rcases hm : matchTok tokens pos "OR" with ⟨m, p1⟩
    rw [hm] at h
    split at h
    · rcases bindErr h with h | ⟨⟨right, p2⟩, h1, h⟩
      · exact hP.andExpr _ _ _ h
      · exact hP.orRest _ _ _ _ h
    · simp only [pure, Except.pure] at h
      cases h
  case andExpr =>
    intro tokens pos e h
    simp only [stepFns] at h
    rcases bindErr h with h | ⟨⟨left, p1⟩, h1, h⟩
    · exact hP.comparison _ _ _ h
    · exact hP.andRest _ _ _ _ h
  case andRest =>
    intro tokens pos left e h
    simp only [stepFns] at h
    rcases hm : matchTok tokens pos "AND" with ⟨m, p1⟩
    rw [hm] at h
    split at h
    · rcases bindErr h with h | ⟨⟨right, p2⟩, h1, h⟩
      · exact hP.comparison _ _ _ h
      · exact hP.andRest _ _ _ _ h
    · simp only [pure, Except.pure] at h
      cases h
  case comparison =>
    intro tokens pos e h
    simp only [stepFns] at h
    rcases bindErr h with h | ⟨⟨left, p1⟩, h1, h⟩
    · exact hP.primary _ _ _ h
    · rcases hct : curTok tokens p1 with _ | t
      · rw [hct] at h
        try dsimp only at h
        injection h with h
        subst h
        exact trivial
      · rw [hct] at h
        try dsimp only at h
        split at h
        · rcases bindErr h with h | ⟨⟨right, p2⟩, h2, h⟩
          · exact hP.primary _ _ _ h
          · simp only [pure, Except.pure] at h
            cases h
        · simp only [pure, Except.pure] at h
          cases h
  case primary =>
    intro tokens pos e h
    simp only [stepFns] at h
    rcases hmp : matchTok tokens pos "(" with ⟨mp, p1⟩
    rw [hmp] at h
    dsimp only at h
    split at h
    · rcases bindErr h with h | ⟨⟨einner, p2⟩, he, h⟩
      · exact hP.expression _ _ _ h
      · rcases bindErr h with h | ⟨p3, h3, h⟩
        · exact expectTok_err h (by decide)
        · simp only [pure, Except.pure] at h
          cases h
    · rcases hct : curTok tokens pos with _ | t
      · rw [hct] at h
        try dsimp only at h
        injection h with h
        subst h
        exact trivial
      · rw [hct] at h
        dsimp only at h
        split at h
        · split at h
          · rcases bindErr h with h | ⟨⟨fn, p1f⟩, hfn, h⟩
            · exact expectIdent_err h
            rcases bindErr h with h | ⟨p2f, h2f, h⟩
            · exact expectTok_err h (by decide)
            dsimp only at h
            rcases hmc : matchTok tokens p2f ")" with ⟨mclose, p3f⟩
            rw [hmc] at h
            dsimp only at h
            split at h
            · simp only [pure, Except.pure] at h
              cases h
            · rcases bindErr h with h | ⟨⟨args, p4f⟩, hargs, h⟩
              · exact hP.argList _ _ _ h
              rcases bindErr h with h | ⟨p5f, h5f, h⟩
              · exact expectTok_err h (by decide)
              · simp only [pure, Except.pure] at h
                cases h
          · rcases bindErr h with h | ⟨⟨first, p1c⟩, hf, h⟩
            · exact expectIdent_err h
            rcases bindErr h with h | ⟨⟨parts, p2c⟩, hpc, h⟩
            · exact hP.partsRest _ _ _ _ h
            · simp only [pure, Except.pure] at h
              cases h
        · split at h
          · simp only [pure, Except.pure] at h
            cases h
          · split at h
            · simp only [pure, Except.pure] at h
              cases h
            · injection h with h
              subst h
              exact Or.inr ⟨t, mem_of_curTok hct, rfl⟩
  case argList =>
    intro tokens pos e h
    simp only [stepFns] at h
    rcases bindErr h with h | ⟨⟨einner, p1⟩, he, h⟩
    · exact hP.expression _ _ _ h
    rcases hmc : matchTok tokens p1 "," with ⟨mc, p2⟩
    rw [hmc] at h
    split at h
    · rcases bindErr h with h | ⟨⟨rest, p3⟩, hrest, h⟩
      · exact hP.argList _ _ _ h
      · simp only [pure, Except.pure] at h
        cases h
    · simp only [pure, Except.pure] at h
      cases h
  case partsRest =>
    intro tokens pos acc e h
    simp only [stepFns] at h
    rcases hm : matchTok tokens pos "." with ⟨m, p1⟩
    rw [hm] at h
    try dsimp only at h
    split at h
    · rcases bindErr h with h | ⟨⟨idv, p2⟩, hid, h⟩
      · exact expectIdent_err h
      · exact hP.partsRest _ _ _ _ h
    · simp only [pure, Except.pure] at h
      cases h
  case groupByClause =>
    intro tokens pos e h
    simp only [stepFns] at h
    rcases bindErr h with h | ⟨⟨einner, p1⟩, he, h⟩
    · exact hP.expression _ _ _ h
    rcases hmc : matchTok tokens p1 "," with ⟨mc, p2⟩
    rw [hmc] at h
    split at h
    · rcases bindErr h with h | ⟨⟨rest, p3⟩, hrest, h⟩
      · exact hP.groupByClause _ _ _ h
      · simp only [pure, Except.pure] at h
        cases h
    · simp only [pure, Except.pure] at h
      cases h
  case havingClause =>
    intro tokens pos e h
    simp only [stepFns] at h
    exact hP.expression _ _ _ h
  case orderByClause =>
    intro tokens pos e h
    simp only [stepFns] at h
    rcases bindErr h with h | ⟨⟨einner, p1⟩, he, h⟩
    · exact hP.expression _ _ _ h
    dsimp only at h
    rcases hma : matchTok tokens p1 "ASC" with ⟨ma, p2⟩
    rw [hma] at h
    dsimp only at h
    by_cases hma2 : ma = true
    · rw [if_pos hma2] at h
      dsimp only at h
      rcases hmc : matchTok tokens p2 "," with ⟨mca, p4a⟩
      rw [hmc] at h
      dsimp only at h
      split at h
      · rcases bindErr h with h | ⟨⟨rest, p5⟩, hrest, h⟩
        · exact hP.orderByClause _ _ _ h
        · simp only [pure, Except.pure] at h
          cases h
      · simp only [pure, Except.pure] at h
        cases h
    · rw [if_neg hma2] at h
      rcases hmd : matchTok tokens p1 "DESC" with ⟨md, p2d⟩
      rw [hmd] at h
      dsimp only at h
      by_cases hmd2 : md = true
      · rw [if_pos hmd2] at h
        dsimp only at h
        rcases hmc : matchTok tokens p2d "," with ⟨mcb, p4b⟩
        rw [hmc] at h
        dsimp only at h
        split at h
        · rcases bindErr h with h | ⟨⟨rest, p5⟩, hrest, h⟩
          · exact hP.orderByClause _ _ _ h
          · simp only [pure, Except.pure] at h
            cases h
        · simp only [pure, Except.pure] at h
          cases h
      · rw [if_neg hmd2] at h
        dsimp only at h
        rcases hmc : matchTok tokens p1 "," with ⟨mcc, p4c⟩
        rw [hmc] at h
        dsimp only at h
        split at h
        · rcases bindErr h with h | ⟨⟨rest, p5⟩, hrest, h⟩
          · exact hP.orderByClause _ _ _ h
          · simp only [pure, Except.pure] at h
            cases h
        · simp only [pure, Except.pure] at h
          cases h

/-- Every depth of the reader satisfies the error-shape invariant. -/
lemma fnsErr_all : ∀ fuel, FnsErrShaped (parserFns fuel) := by
  intro fuel
  induction fuel with
  | zero => exact fnsErr_noFuel
  | succ k ih => exact fnsErr_step _ ih

/-- Every error of the parser entry point is shaped. -/
lemma parseTokens_err (tokens : List Token) (e : PErr)
    (h : parseTokens tokens = .error e) : errShape tokens e := by
  rw [parseTokens] at h
  rcases hres : parseSelectStmt (16 * tokens.length + 64) tokens 0 with eo | a
  · rw [hres] at h
    simp only [Except.map] at h
    injection h with h
    subst h
    exact (fnsErr_all _).selectStmt tokens 0 eo hres
  · rw [hres] at h
    simp only [Except.map] at h
    cases h

set_option maxRecDepth 100000 in
set_option maxHeartbeats 2000000 in
/-- C9 (amended): a failed parse never reports the offending token's
position.  Universally, every failure of `parse` is the TypeError of the
exhausted-stream `this.current().type` dereference, the model's
fuel-exhaustion outcome, or a ParseError whose message is one of two
fixed templates built from token values only: `Expected <w>, got <v>`
with `<w>` an expectation word and `<v>` the rendered value of a token
of the stream (or `undefined` at end of input), or
`Unexpected token: <v>` with `<v>` the rendered value of a token of the
stream.  Witnessed on three inputs: a primary-expression failure names
the offending value, an expectation failure names the expected and
offending values, and an exhausted input ends in the TypeError. -/
theorem C9_amended_thm :
    (∀ (tokens : List Token) (e : PErr), parseTokens tokens = .error e →
      e = .typeError ∨ e = .outOfFuel ∨
      ∃ msg, e = .parseError msg ∧
        ((∃ w g, w ∈ expectedWords ∧ gotFromStream tokens g ∧
            msg = "Expected " ++ w ++ ", got " ++ g) ∨
          (∃ t, t ∈ tokens ∧
            msg = "Unexpected token: " ++ showTValue t.value))) ∧
    parseSQL "SELECT FROM t" = .error (.parseError "Unexpected token: FROM") ∧
    parseSQL "SELECT a WHERE x" =
      .error (.parseError "Expected FROM, got WHERE") ∧
    parseSQL "SELECT a FROM t" = .error .typeError := by
  refine ⟨?_, by rfl, by rfl, by rfl⟩
  intro tokens e h
  have hs := parseTokens_err tokens e h
  cases e with
  | parseError msg => exact Or.inr (Or.inr ⟨msg, rfl, hs⟩)
  | typeError => exact Or.inl rfl
  | outOfFuel => exact Or.inr (Or.inl rfl)

set_option maxRecDepth 100000 in
set_option maxHeartbeats 2000000 in
/-- C9 witness: the error taxonomy applied to the concrete failing parse
of `SELECT`, whose token stream is exhausted where a primary expression
is required. -/
theorem C9_witness :
    PErr.typeError = PErr.typeError ∨ PErr.typeError = PErr.outOfFuel ∨
    ∃ msg, PErr.typeError = PErr.parseError msg ∧
      ((∃ w g, w ∈ expectedWords ∧ gotFromStream (tokenize "SELECT") g ∧
          msg = "Expected " ++ w ++ ", got " ++ g) ∨
        (∃ t, t ∈ tokenize "SELECT" ∧
          msg = "Unexpected token: " ++ showTValue t.value)) :=
  C9_amended_thm.1 (tokenize "SELECT") PErr.typeError (by rfl)

/-- The AST of `SELECT a FROM t WHERE a = 1`. -/
def astW : SelectAst :=
  { columns := [.column ["a"]]
    «from» := [.table "t" none]
    «where» := some (.binaryOp "=" (.column ["a"])
      (.literal (some .NUMBER) (.num (.rat 1))))
    groupBy := none, having := none, orderBy := none, limit := none }

/-- C10: every LITERAL node produced by constant folding
(`evaluateBinaryOp` on `+ - * /`) carries no `dataType`, while every
LITERAL in a successfully parsed AST carries one (NUMBER or STRING). -/
theorem C10_thm :
    (∀ (op : String) (l r : Expr), foldableOp op = true →
      ∃ v, evaluateBinaryOp op l r = .literal none v) ∧
    (∀ (tokens : List Token) (ast : SelectAst),
      parseTokens tokens = .ok ast → litsTypedSelect ast = true) := by
  constructor
  · intro op l r hop
    unfold evaluateBinaryOp
    split_ifs with h1 h2 h3 h4
    · exact ⟨_, rfl⟩
    · exact ⟨_, rfl⟩
    · exact ⟨_, rfl⟩
    · exact ⟨_, rfl⟩
    · exact absurd hop (by simp [foldableOp, h1, h2, h3, h4])
  · intro tokens ast h
    rw [parseTokens] at h
    rcases hres : parseSelectStmt (16 * tokens.length + 64) tokens 0 with err | ⟨ast', p⟩
    · rw [hres] at h
      exact absurd h (by simp [Except.map])
    · rw [hres] at h
      simp only [Except.map, Except.ok.injEq] at h
      rw [← h]
      exact (fnsTyped_all (16 * tokens.length + 64)).selectStmt tokens 0 ast' p hres

set_option maxRecDepth 100000 in
/-- C10 witness: the fold of `2 + 3` yields an untyped literal, and the
parse of `SELECT a FROM t WHERE a = 1` yields an AST whose literals are
all typed. -/
theorem C10_witness :
    (foldableOp "+" = true ∧
      ∃ v, evaluateBinaryOp "+" (.literal (some .NUMBER) (.num (.rat 2)))
        (.literal (some .NUMBER) (.num (.rat 3))) = .literal none v) ∧
    parseTokens (tokenize "SELECT a FROM t WHERE a = 1") = .ok astW ∧
    litsTypedSelect astW = true := by
  have hparse : parseTokens (tokenize "SELECT a FROM t WHERE a = 1") = .ok astW := by
    with_unfolding_all decide
  exact ⟨⟨by decide, C10_thm.1 "+" _ _ (by decide)⟩, hparse,
    C10_thm.2 _ _ hparse⟩

/-! ## Claim C1: shape of the generated execution plan -/

/-- `clausesChildless` over `PlanList.ofList` is `List.all`. -/
lemma clausesChildless_ofList (l : List PlanNode) :
    clausesChildless (PlanList.ofList l) = l.all clauseChildless := by
  induction l with
  | nil => rfl
  | cons x t ih =>
    rw [PlanList.ofList, clausesChildless, ih, List.all_cons]

/-- Lowered FROM nodes are scans or joins, never clause nodes. -/
lemma generateFromPlan_clauseChildless (idxsel : List CandIndex) :
    ∀ f : FromNode, clauseChildless (generateFromPlan idxsel f) = true := by
  intro f
  cases f with
  | table name a =>
    rw [generateFromPlan]
    split <;> rfl
  | join jt l r cond m p => rfl

set_option maxRecDepth 400000 in
/-- C1 counterexample: optimizing the end-to-end query over the example
statistics and indexes yields a plan whose root is not a LIMIT node (it
is the QUERY_PLAN node, with the join, the filter and the limit as flat
siblings), so the optional clauses do not wrap the source plan. -/
theorem C1_counterexample :
    parseSQL sqlE2E = .ok e2eAst ∧
    rootIsLimit (optimize mlog0 exStats exIndexes e2eAst).plan = false := by
  constructor
  · with_unfolding_all decide
  · with_unfolding_all decide

set_option maxRecDepth 400000 in
/-- C1 (amended): `generateExecutionPlan` appends each present optional
clause as a childless sibling under the QUERY_PLAN root, in the fixed
order source, FILTER, GROUP, SORT, LIMIT — no clause wraps the previous
plan.  Optimizing the end-to-end query over the example statistics and
indexes produces the flat plan whose children are the nested-loop join
of the two index scans, a childless FILTER and a childless LIMIT, and
whose estimated cost is the finite non-negative number 49.1. -/
theorem C1_amended_thm :
    (∀ (ast : SelectAst) (idxsel : List CandIndex),
        flatClauses (generateExecutionPlan ast idxsel) = true) ∧
    parseSQL sqlE2E = .ok e2eAst ∧
    (optimize mlog0 exStats exIndexes e2eAst).plan = e2ePlan ∧
    (optimize mlog0 exStats exIndexes e2eAst).cost = ((491 / 10 : ℚ) : ℝ) ∧
    0 ≤ (optimize mlog0 exStats exIndexes e2eAst).cost := by
  have hflat : ∀ (ast : SelectAst) (idxsel : List CandIndex),
      flatClauses (generateExecutionPlan ast idxsel) = true := by
    intro ast idxsel
    rw [generateExecutionPlan, flatClauses, clausesChildless_ofList]
    simp only [List.all_append, Bool.and_eq_true]
    refine ⟨⟨⟨⟨?_, ?_⟩, ?_⟩, ?_⟩, ?_⟩
    · rcases ast.«from» with _ | ⟨f, fs⟩
      · rfl
      · simp [generateFromPlan_clauseChildless]
    · rcases ast.«where» with _ | w <;> rfl
    · rcases ast.groupBy with _ | es <;> rfl
    · rcases ast.orderBy with _ | items <;> rfl
    · rcases ast.limit with _ | v
      · rfl
      · by_cases hv : jsTruthy v = true
        · simp [hv, clauseChildless]
        · simp [Bool.not_eq_true _ ▸ Bool.of_not_eq_true hv]
  have hparse : parseSQL sqlE2E = .ok e2eAst := by with_unfolding_all decide
  have hplan : (optimize mlog0 exStats exIndexes e2eAst).plan = e2ePlan := by
    with_unfolding_all decide
  have hcost0 : (optimize mlog0 exStats exIndexes e2eAst).cost =
      estimatePlanCost exStats exIndexes
        (optimize mlog0 exStats exIndexes e2eAst).plan := rfl
  have hu : getIndexScanCost exStats exIndexes "users_email_idx" "users" = 18 := by
    with_unfolding_all decide
  have hpn : getIndexScanCost exStats exIndexes "posts_user_id_idx" "posts" = 30 := by
    with_unfolding_all decide
  have hc491 : (optimize mlog0 exStats exIndexes e2eAst).cost =
      ((491 / 10 : ℚ) : ℝ) := by
    rw [hcost0, hplan, e2ePlan]
    simp only [estimatePlanCost, estimatePlanCostSum, estimatePlanCostHead,
      estimatePlanCostSecond, estimateCardinalityHead, estimateCardinalitySecond,
      estimateCardinality, hu, hpn]
    norm_num
  refine ⟨hflat, hparse, hplan, hc491, ?_⟩
  rw [hc491]
  positivity

/-! ## Claim C8: cost monotonicity in row counts -/

/-- Pointwise comparison of two statistics entries: same presence, and
the row count does not decrease. -/
def statEntryLE : Option TableStats → Option TableStats → Prop
  | none, none => True
  | some a, some b => a.rowCount ≤ b.rowCount
  | _, _ => False

/-- `s2` has the same tables as `s1` with row counts at least as large
(e.g. `s1` with one table's row count increased). -/
def statLE (s1 s2 : Stats) : Prop := ∀ n, statEntryLE (s1 n) (s2 n)

/-- All selectivities in an index catalog are non-negative. -/
def idxSelNonneg (idxs : IndexCatalog) : Prop :=
  ∀ ni : String × IndexInfo, List.Mem ni idxs → 0 ≤ ni.2.selectivity

mutual
/-- A plan containing no SORT node. -/
def noSortP : PlanNode → Bool
  | .sort _ _ => false
  | .tableScan _ => true
  | .indexScan _ _ => true
  | .pjoin _ _ cs => noSortL cs
  | .filter _ cs => noSortL cs
  | .group _ cs => noSortL cs
  | .plimit _ cs => noSortL cs
  | .queryPlan cs => noSortL cs

/-- `noSortP` over a children array. -/
def noSortL : PlanList → Bool
  | .nil => true
  | .cons h t => noSortP h && noSortL t
end

/-- All the selectivity constants are non-negative. -/
lemma selOfOperator_nonneg (op : Option String) : 0 ≤ selOfOperator op := by
  rcases op with _ | o <;> dsimp only [selOfOperator]
  · norm_num
  · split_ifs <;> norm_num

/-- The join selectivity is non-negative. -/
lemma estimateJoinSelectivityOf_nonneg (cond : Option Expr) :
    0 ≤ estimateJoinSelectivityOf cond := by
  unfold estimateJoinSelectivityOf
  rcases cond with _ | c
  · norm_num
  · exact selOfOperator_nonneg _

mutual
/-- Estimated cardinalities are non-negative. -/
theorem cardNonneg (stats : Stats) : ∀ p : PlanNode,
    0 ≤ estimateCardinality stats p
  | .tableScan t => by
    rw [estimateCardinality]
    positivity
  | .indexScan t i => by rw [estimateCardinality]; norm_num
  | .pjoin tag cond cs => by
    rw [estimateCardinality]
    split_ifs
    · exact mul_nonneg (mul_nonneg (cardHeadNonneg stats cs)
        (cardSecondNonneg stats cs)) (estimateJoinSelectivityOf_nonneg cond)
    · exact cardHeadNonneg stats cs
  | .filter pred cs => by
    rw [estimateCardinality]
    exact mul_nonneg (cardHeadNonneg stats cs) (selOfOperator_nonneg _)
  | .group _ cs => by rw [estimateCardinality]; exact cardHeadNonneg stats cs
  | .sort _ cs => by rw [estimateCardinality]; exact cardHeadNonneg stats cs
  | .plimit _ cs => by rw [estimateCardinality]; exact cardHeadNonneg stats cs
  | .queryPlan cs => by rw [estimateCardinality]; exact cardHeadNonneg stats cs

/-- First-child cardinalities are non-negative. -/
theorem cardHeadNonneg (stats : Stats) : ∀ cs : PlanList,
    0 ≤ estimateCardinalityHead stats cs
  | .nil => by rw [estimateCardinalityHead]; norm_num
  | .cons h t => by rw [estimateCardinalityHead]; exact cardNonneg stats h

/-- Second-child cardinalities are non-negative. -/
theorem cardSecondNonneg (stats : Stats) : ∀ cs : PlanList,
    0 ≤ estimateCardinalitySecond stats cs
  | .nil => by rw [estimateCardinalitySecond]; norm_num
  | .cons h t => by rw [estimateCardinalitySecond]; exact cardHeadNonneg stats t
end

/-- Scan costs are monotone in the statistics. -/
lemma scanCostN_mono {s1 s2 : Stats} (h12 : statLE s1 s2) (t : String) :
    getTableScanCostN s1 t ≤ getTableScanCostN s2 t := by
  have ht := h12 t
  unfold getTableScanCostN
  rcases hs1 : s1 t with _ | a <;> rcases hs2 : s2 t with _ | b <;>
    rw [hs1, hs2] at ht <;> simp_all [statEntryLE]

mutual
/-- Estimated cardinalities are monotone in the statistics. -/
theorem cardMono {s1 s2 : Stats} (h12 : statLE s1 s2) : ∀ p : PlanNode,
    estimateCardinality s1 p ≤ estimateCardinality s2 p
  | .tableScan t => by
    rw [estimateCardinality, estimateCardinality]
    exact_mod_cast scanCostN_mono h12 t
  | .indexScan t i => by rw [estimateCardinality, estimateCardinality]
  | .pjoin tag cond cs => by
    rw [estimateCardinality, estimateCardinality]
    split_ifs
    · refine mul_le_mul_of_nonneg_right ?_ (estimateJoinSelectivityOf_nonneg cond)
      exact mul_le_mul (cardHeadMono h12 cs) (cardSecondMono h12 cs)
        (cardSecondNonneg s1 cs) (le_trans (cardHeadNonneg s1 cs) (cardHeadMono h12 cs))
    · exact cardHeadMono h12 cs
  | .filter pred cs => by
    rw [estimateCardinality, estimateCardinality]
    exact mul_le_mul_of_nonneg_right (cardHeadMono h12 cs) (selOfOperator_nonneg _)
  | .group _ cs => by
    rw [estimateCardinality, estimateCardinality]; exact cardHeadMono h12 cs
  | .sort _ cs => by
    rw [estimateCardinality, estimateCardinality]; exact cardHeadMono h12 cs
  | .plimit _ cs => by
    rw [estimateCardinality, estimateCardinality]; exact cardHeadMono h12 cs
  | .queryPlan cs => by
    rw [estimateCardinality, estimateCardinality]; exact cardHeadMono h12 cs

/-- First-child cardinalities are monotone in the statistics. -/
theorem cardHeadMono {s1 s2 : Stats} (h12 : statLE s1 s2) : ∀ cs : PlanList,
    estimateCardinalityHead s1 cs ≤ estimateCardinalityHead s2 cs
  | .nil => by rw [estimateCardinalityHead, estimateCardinalityHead]
  | .cons h t => by
    rw [estimateCardinalityHead, estimateCardinalityHead]; exact cardMono h12 h

/-- Second-child cardinalities are monotone in the statistics. -/
theorem cardSecondMono {s1 s2 : Stats} (h12 : statLE s1 s2) : ∀ cs : PlanList,
    estimateCardinalitySecond s1 cs ≤ estimateCardinalitySecond s2 cs
  | .nil => by rw [estimateCardinalitySecond, estimateCardinalitySecond]
  | .cons h t => by
    rw [estimateCardinalitySecond, estimateCardinalitySecond]
    exact cardHeadMono h12 t
end

/-- The index-scan cost is monotone in the statistics when the catalog's
selectivities are non-negative. -/
lemma idxCost_mono {s1 s2 : Stats} {idxs : IndexCatalog} (h12 : statLE s1 s2)
    (hidx : idxSelNonneg idxs) (iname tname : String) :
    getIndexScanCost s1 idxs iname tname ≤ getIndexScanCost s2 idxs iname tname := by
  have ht := h12 tname
  rw [getIndexScanCost, getIndexScanCost]
  rcases hs1 : s1 tname with _ | a <;> rcases hs2 : s2 tname with _ | b <;>
    rw [hs1, hs2] at ht
  all_goals try exact False.elim ht
  all_goals try (norm_num; done)
  have hab : a.rowCount ≤ b.rowCount := ht
  rcases hl : indexLookup idxs iname with _ | idx
  · norm_num
  · have hsel : 0 ≤ idx.selectivity := by
      rw [indexLookup] at hl
      rcases hfind : List.find? (fun ni => ni.1 == iname) idxs with _ | ni
      · rw [hfind] at hl
        exact absurd hl (by simp)
      · rw [hfind] at hl
        dsimp only [Option.map] at hl
        injection hl with hl
        rw [← hl]
        exact hidx ni (List.mem_of_find?_eq_some hfind)
    dsimp only
    refine add_le_add ?_ ?_
    · exact_mod_cast ceilLog2_mono hab
    · exact mul_le_mul_of_nonneg_right (by exact_mod_cast hab) hsel

mutual
/-- `estimatePlanCost` is monotone in the statistics on sort-free plans. -/
theorem costMono {s1 s2 : Stats} {idxs : IndexCatalog} (h12 : statLE s1 s2)
    (hidx : idxSelNonneg idxs) : ∀ p : PlanNode, noSortP p = true →
    estimatePlanCost s1 idxs p ≤ estimatePlanCost s2 idxs p
  | .tableScan t, _ => by
    rw [estimatePlanCost, estimatePlanCost]
    exact_mod_cast scanCostN_mono h12 t
  | .indexScan t i, _ => by
    rw [estimatePlanCost, estimatePlanCost]
    exact_mod_cast idxCost_mono h12 hidx i t
  | .pjoin tag cond cs, h => by
    rw [noSortP] at h
    rw [estimatePlanCost, estimatePlanCost]
    split_ifs
    · refine add_le_add (add_le_add (costMonoHead h12 hidx cs h)
        (costMonoSecond h12 hidx cs h)) ?_
      have hh1 : (estimateCardinalityHead s1 cs : ℝ) ≤
          (estimateCardinalityHead s2 cs : ℝ) := by
        exact_mod_cast cardHeadMono h12 cs
      have hh2 : (estimateCardinalitySecond s1 cs : ℝ) ≤
          (estimateCardinalitySecond s2 cs : ℝ) := by
        exact_mod_cast cardSecondMono h12 cs
      have hn1 : (0:ℝ) ≤ (estimateCardinalityHead s1 cs : ℝ) := by
        exact_mod_cast cardHeadNonneg s1 cs
      have hn2 : (0:ℝ) ≤ (estimateCardinalitySecond s1 cs : ℝ) := by
        exact_mod_cast cardSecondNonneg s1 cs
      exact mul_le_mul hh1 hh2 hn2 (le_trans hn1 hh1)
    · refine add_le_add (add_le_add (add_le_add (costMonoHead h12 hidx cs h)
        (costMonoSecond h12 hidx cs h)) ?_) ?_
      · exact_mod_cast cardHeadMono h12 cs
      · exact_mod_cast cardSecondMono h12 cs
    · exact costMonoSum h12 hidx cs h
  | .filter pred cs, h => by
    rw [noSortP] at h
    rw [estimatePlanCost, estimatePlanCost]
    refine add_le_add (costMonoHead h12 hidx cs h) ?_
    refine mul_le_mul_of_nonneg_right ?_ (by norm_num)
    exact_mod_cast cardHeadMono h12 cs
  | .group _ cs, h => by
    rw [noSortP] at h
    rw [estimatePlanCost, estimatePlanCost]
    exact costMonoSum h12 hidx cs h
  | .sort _ cs, h => by
    rw [noSortP] at h
    exact absurd h (by simp)
  | .plimit _ cs, h => by
    rw [noSortP] at h
    rw [estimatePlanCost, estimatePlanCost]
    exact costMonoSum h12 hidx cs h
  | .queryPlan cs, h => by
    rw [noSortP] at h
    rw [estimatePlanCost, estimatePlanCost]
    exact costMonoSum h12 hidx cs h

/-- First-child costs are monotone on sort-free children arrays. -/
theorem costMonoHead {s1 s2 : Stats} {idxs : IndexCatalog} (h12 : statLE s1 s2)
    (hidx : idxSelNonneg idxs) : ∀ cs : PlanList, noSortL cs = true →
    estimatePlanCostHead s1 idxs cs ≤ estimatePlanCostHead s2 idxs cs
  | .nil, _ => by rw [estimatePlanCostHead, estimatePlanCostHead]
  | .cons hd t, h => by
    rw [noSortL, Bool.and_eq_true] at h
    rw [estimatePlanCostHead, estimatePlanCostHead]
    exact costMono h12 hidx hd h.1

/-- Second-child costs are monotone on sort-free children arrays. -/
theorem costMonoSecond {s1 s2 : Stats} {idxs : IndexCatalog} (h12 : statLE s1 s2)
    (hidx : idxSelNonneg idxs) : ∀ cs : PlanList, noSortL cs = true →
    estimatePlanCostSecond s1 idxs cs ≤ estimatePlanCostSecond s2 idxs cs
  | .nil, _ => by rw [estimatePlanCostSecond, estimatePlanCostSecond]
  | .cons hd t, h => by
    rw [noSortL, Bool.and_eq_true] at h
    rw [estimatePlanCostSecond, estimatePlanCostSecond]
    exact costMonoHead h12 hidx t h.2

/-- Summed children costs are monotone on sort-free children arrays. -/
theorem costMonoSum {s1 s2 : Stats} {idxs : IndexCatalog} (h12 : statLE s1 s2)
    (hidx : idxSelNonneg idxs) : ∀ cs : PlanList, noSortL cs = true →
    estimatePlanCostSum s1 idxs cs ≤ estimatePlanCostSum s2 idxs cs
  | .nil, _ => by rw [estimatePlanCostSum, estimatePlanCostSum]
  | .cons hd t, h => by
    rw [noSortL, Bool.and_eq_true] at h
    rw [estimatePlanCostSum, estimatePlanCostSum]
    exact add_le_add (costMono h12 hidx hd h.1) (costMonoSum h12 hidx t h.2)
end

/-- An equality filter predicate over table `t` (selectivity 0.1). -/
def c8Pred : Expr :=
  .binaryOp "=" (.column ["t", "x"]) (.literal (some .NUMBER) (.num (.rat 1)))

/-- FILTER over a scan of table `t`. -/
def c8Filter : PlanNode := .filter c8Pred (.cons (.tableScan "t") .nil)

/-- A stack of `k` SORT nodes over the filtered scan. -/
def sortStack : Nat → PlanNode
  | 0 => c8Filter
  | k + 1 => .sort [] (.cons (sortStack k) .nil)

/-- Statistics giving table `t` the row count `r`. -/
def stT (r : Nat) : Stats := fun n => if n = "t" then some ⟨r⟩ else none

/-- Every level of the sort stack has the filtered cardinality. -/
lemma sortStack_card (stats : Stats) : ∀ k,
    estimateCardinality stats (sortStack k) = estimateCardinality stats c8Filter
  | 0 => rfl
  | k + 1 => by
    rw [sortStack, estimateCardinality, estimateCardinalityHead,
      sortStack_card stats k]

/-- Each SORT layer adds `card * log2 card` to the cost. -/
lemma sortStack_cost (stats : Stats) (idxs : IndexCatalog) (k : Nat) :
    estimatePlanCost stats idxs (sortStack (k + 1)) =
      estimatePlanCost stats idxs (sortStack k) +
        ((estimateCardinality stats c8Filter : ℚ) : ℝ) *
          Real.logb 2 ((estimateCardinality stats c8Filter : ℚ) : ℝ) := by
  rw [sortStack, estimatePlanCost, estimatePlanCostHead, estimateCardinalityHead,
    sortStack_card]

/-- Closed form of the sort-stack cost. -/
lemma sortStack_cost_closed (stats : Stats) (idxs : IndexCatalog) : ∀ k : Nat,
    estimatePlanCost stats idxs (sortStack k) =
      estimatePlanCost stats idxs c8Filter +
        (k : ℝ) * (((estimateCardinality stats c8Filter : ℚ) : ℝ) *
          Real.logb 2 ((estimateCardinality stats c8Filter : ℚ) : ℝ)) := by
  intro k
  induction k with
  | zero => rw [sortStack]; push_cast; ring
  | succ n ih =>
    rw [sortStack_cost, ih]
    push_cast
    ring

/-- `log2 5` exceeds 2.1 (since `2^21 < 5^10`). -/
lemma logb_five_gt : (21 / 10 : ℝ) < Real.logb 2 5 := by
  rw [Real.lt_logb_iff_rpow_lt one_lt_two (by norm_num : (0:ℝ) < 5)]
  have key : ((2:ℝ) ^ ((21:ℝ)/10)) ^ (10:ℕ) < 5 ^ (10:ℕ) := by
    rw [← Real.rpow_natCast ((2:ℝ) ^ ((21:ℝ)/10)) 10,
      ← Real.rpow_mul (by norm_num : (0:ℝ) ≤ 2)]
    rw [show ((21:ℝ)/10 * (10:ℕ) : ℝ) = ((21:ℕ) : ℝ) by push_cast; ring]
    rw [Real.rpow_natCast]
    norm_num
  exact lt_of_pow_lt_pow_left 10 (by norm_num) key

set_option maxRecDepth 10000 in
/-- C8 counterexample: on the fixed sort-free-violating plan shape
SORT^10(FILTER(TABLE_SCAN t)), raising the row count of `t` from 1 to 2
(all other statistics unchanged) strictly decreases the estimated total
plan cost, because each SORT contributes `card * log2 card` with
`card < 1`. -/
theorem C8_counterexample :
    stT 1 "t" = some ⟨1⟩ ∧ stT 2 "t" = some ⟨2⟩ ∧
    estimatePlanCost (stT 2) [] (sortStack 10) <
      estimatePlanCost (stT 1) [] (sortStack 10) := by
  refine ⟨rfl, rfl, ?_⟩
  have hcard1 : estimateCardinality (stT 1) c8Filter = 1/10 := by
    with_unfolding_all decide
  have hcard2 : estimateCardinality (stT 2) c8Filter = 1/5 := by
    with_unfolding_all decide
  have hs1 : getTableScanCostN (stT 1) "t" = 1 := by decide
  have hs2 : getTableScanCostN (stT 2) "t" = 2 := by decide
  have hch1 : estimateCardinalityHead (stT 1)
      (.cons (.tableScan "t") .nil) = 1 := by with_unfolding_all decide
  have hch2 : estimateCardinalityHead (stT 2)
      (.cons (.tableScan "t") .nil) = 2 := by with_unfolding_all decide
  have hcost1 : estimatePlanCost (stT 1) [] c8Filter = 11/10 := by
    rw [c8Filter, estimatePlanCost, estimatePlanCostHead, estimatePlanCost,
      hs1, hch1]
    norm_num
  have hcost2 : estimatePlanCost (stT 2) [] c8Filter = 11/5 := by
    rw [c8Filter, estimatePlanCost, estimatePlanCostHead, estimatePlanCost,
      hs2, hch2]
    norm_num
  rw [sortStack_cost_closed, sortStack_cost_closed, hcard1, hcard2, hcost1,
    hcost2]
  have hl5 : Real.logb 2 ((1/5 : ℚ) : ℝ) = -Real.logb 2 5 := by
    rw [show (((1/5 : ℚ)) : ℝ) = (5 : ℝ)⁻¹ by norm_num, Real.logb_inv]
  have hl10 : Real.logb 2 ((1/10 : ℚ) : ℝ) = -(1 + Real.logb 2 5) := by
    rw [show (((1/10 : ℚ)) : ℝ) = (10 : ℝ)⁻¹ by norm_num, Real.logb_inv]
    rw [show (10 : ℝ) = 2 * 5 by norm_num,
      Real.logb_mul (by norm_num) (by norm_num), Real.logb_self_eq_one] <;>
      norm_num
  rw [hl5, hl10]
  have hL := logb_five_gt
  push_cast
  nlinarith [hL]

/-- C8 (amended): for every fixed plan shape containing no SORT node, and
any index catalog with non-negative selectivities, increasing any input
table's row count while holding the other statistics fixed never
decreases the estimated total plan cost. -/
theorem C8_amended_thm (s1 s2 : Stats) (idxs : IndexCatalog) (p : PlanNode)
    (h12 : statLE s1 s2) (hidx : idxSelNonneg idxs) (hns : noSortP p = true) :
    estimatePlanCost s1 idxs p ≤ estimatePlanCost s2 idxs p :=
  costMono h12 hidx p hns

/-- C8 witness: the amended monotonicity on FILTER(TABLE_SCAN t) as the
row count of `t` grows from 1 to 2. -/
theorem C8_witness :
    statLE (stT 1) (stT 2) ∧ idxSelNonneg ([] : IndexCatalog) ∧
    noSortP c8Filter = true ∧
    estimatePlanCost (stT 1) [] c8Filter ≤
      estimatePlanCost (stT 2) [] c8Filter := by
  have h12 : statLE (stT 1) (stT 2) := by
    intro n
    by_cases hn : n = "t" <;> simp [stT, hn, statEntryLE]
  have hidx : idxSelNonneg ([] : IndexCatalog) := by
    intro ni hni
    exact absurd hni (List.not_mem_nil ni)
  exact ⟨h12, hidx, by decide, C8_amended_thm _ _ _ _ h12 hidx (by decide)⟩

/-! ## Bitmask and popcount library for the join-order DP (C3) -/

lemma submask_le {s m : Nat} (h : s &&& m = s) : s ≤ m := by
  calc s = s &&& m := h.symm
    _ ≤ m := Nat.and_le_right

lemma land_lor_self_right (a b : Nat) : b &&& (a ||| b) = b :=
  Nat.eq_of_testBit_eq (fun i => by
    cases ha : a.testBit i <;> cases hb : b.testBit i <;>
      simp [Nat.testBit_land, Nat.testBit_lor, ha, hb])

lemma le_lor_right (a b : Nat) : b ≤ a ||| b :=
  submask_le (land_lor_self_right a b)

/-- Binary join-shape trees over table indices. -/
inductive JTree where
  | leaf (i : Nat)
  | node (l r : JTree)

/-- Bitmask of the tables a join tree uses. -/
def JTree.mask : JTree → Nat
  | .leaf i => 1 <<< i
  | .node l r => l.mask ||| r.mask

/-- Well-formedness over `n` tables: leaf indices in range, the two sides
of every join disjoint. -/
def JTree.ok (n : Nat) : JTree → Prop
  | .leaf i => i < n
  | .node l r => l.ok n ∧ r.ok n ∧ l.mask &&& r.mask = 0

